import Mathlib

/-!
# filemeta: the inode report of `os_inode.c`

A shallow embedding of the functions of `src/os_inode.c` and the properties of
the report they print.

Conventions of the embedding.

* A C string is a Lean `String` (or `List Char`) whose characters stand for the
  bytes of the C string; `strlen` is `String.length`.
* Every `pr_*` function of the source returns `void` and writes to standard
  output.  Its model returns the text it writes.  A function that can end the
  process or run into undefined behaviour returns an `Outcome`.
* `perror` writes to standard error; that stream is not recorded.  The call can
  change `errno`, and `exit(errno)` after it passes the changed value: the
  environment gives the value of `errno` a `perror` call leaves.
* Unsigned machine integers are `Nat`, signed ones are `Int`; conversions and
  wrap-around are written out where the source relies on them.
-/

namespace Filemeta

/-! ## Platform constants (`<sys/stat.h>`, `<dirent.h>`, `<errno.h>` of Linux/glibc) -/

/-- The mask of the file-type bits of a mode, `__S_IFMT`. -/
def S_IFMT : Nat := 0o170000
/-- Directory type bits. -/
def S_IFDIR : Nat := 0o040000
/-- Character device type bits. -/
def S_IFCHR : Nat := 0o020000
/-- Block device type bits. -/
def S_IFBLK : Nat := 0o060000
/-- Regular file type bits. -/
def S_IFREG : Nat := 0o100000
/-- FIFO type bits. -/
def S_IFIFO : Nat := 0o010000
/-- Symbolic link type bits. -/
def S_IFLNK : Nat := 0o120000
/-- Socket type bits. -/
def S_IFSOCK : Nat := 0o140000

/-- The `d_type` of a directory. -/
def DT_DIR : Nat := 4
/-- The `d_type` of a regular file. -/
def DT_REG : Nat := 8
/-- The `d_type` of a symbolic link. -/
def DT_LNK : Nat := 10

/-- Permission denied. -/
def EACCES : Nat := 13
/-- Invalid argument. -/
def EINVAL : Nat := 22
/-- Result too large (buffer too small for `getcwd`). -/
def ERANGE : Nat := 34
/-- Too many levels of symbolic links. -/
def ELOOP : Nat := 40

/-! ## Machine integers and `printf` conversions -/

/-- Conversion of an unsigned value to `int` (32 bits, two's complement). -/
def to_int (n : Nat) : Int :=
  if n % 2 ^ 32 < 2 ^ 31 then ((n % 2 ^ 32 : Nat) : Int) else ((n % 2 ^ 32 : Nat) : Int) - 2 ^ 32

/-- Reading of an `unsigned long` argument by the conversion `%ld` (64 bits). -/
def to_long (n : Nat) : Int :=
  if n % 2 ^ 64 < 2 ^ 63 then ((n % 2 ^ 64 : Nat) : Int) else ((n % 2 ^ 64 : Nat) : Int) - 2 ^ 64

/-- The number of low bits a 24-bit significand cannot hold: the least `e` with
`n / 2 ^ e < 2 ^ 24` (the first argument bounds the recursion). -/
def float_shift : Nat → Nat → Nat
  | 0, _ => 0
  | fuel + 1, n => if n < 2 ^ 24 then 0 else float_shift fuel (n / 2) + 1

/-- The conversion `(float)size` of an unsigned integer: the nearest value with a
24-bit significand, ties to the even significand (IEEE 754 binary32; no overflow
below `2 ^ 128`). -/
def to_float (n : Nat) : Nat :=
  if n < 2 ^ 24 then n
  else
    let e := float_shift n n
    let q := n / 2 ^ e
    let r := n % 2 ^ e
    let half := 2 ^ (e - 1)
    if r < half then q * 2 ^ e
    else if half < r then (q + 1) * 2 ^ e
    else if q % 2 = 0 then q * 2 ^ e else (q + 1) * 2 ^ e

/-- The quotient `num / den` rounded to an integer, ties to even. -/
def round_half_even (num den : Nat) : Nat :=
  let q := num / den
  let r := num % den
  if 2 * r < den then q
  else if den < 2 * r then q + 1
  else if q % 2 = 0 then q else q + 1

/-- The conversion `%.2f` applied to the non-negative value `num / den`: the
value is rounded to hundredths `h` (exactly, ties to even, as glibc does for the
default rounding mode) and printed as integer part, point, two digits. -/
def printf_2f (num den : Nat) : String :=
  let h := round_half_even (num * 100) den
  toString (h / 100) ++ "." ++ String.mk [Nat.digitChar (h / 10 % 10), Nat.digitChar (h % 10)]

/-! ## Block size -/

/-- The text printed by `pr_blksize(blksize)` (not part of the report). -/
def pr_blksize (blksize : Nat) : String :=
  "Block size:\t\t" ++ toString (to_long blksize) ++ "\n"

/-! ## Permission decoder -/

/-- The `switch (k)` of `pr_permissions`: the letter printed for a set bit. -/
def perm_letter (k : Nat) : List Char :=
  match k with
  | 0 => ['r']
  | 1 => ['w']
  | 2 => ['x']
  | _ => []

/-- The inner loop `for (k = 0; k < 3; k++)` of `pr_permissions`, with `n`
iterations left: test bit `0x100`, print, shift left by one. -/
def pr_permissions_k : Nat → Nat → Nat → List Char
  | 0, _, _ => []
  | n + 1, k, bits =>
    (if bits &&& 0x100 = 0x100 then perm_letter k else ['-'])
      ++ pr_permissions_k n (k + 1) (bits <<< 1)

/-- The outer loop `for (i = 0; i < 3; i++)` of `pr_permissions`, with `n`
iterations left: `bits = mode; bits &= 0x1C0 >> (3 * i); bits = bits << (3 * i)`.
The mask keeps `bits` below `0x200`, so the conversion of `mode` to `int` and
the shifts lose nothing. -/
def pr_permissions_i : Nat → Nat → Nat → List Char
  | 0, _, _ => []
  | n + 1, i, mode =>
    pr_permissions_k 3 0 ((mode &&& (0x1C0 >>> (3 * i))) <<< (3 * i))
      ++ pr_permissions_i n (i + 1) mode

/-- The characters `pr_permissions` prints between its label and the newline. -/
def perm_string (mode : Nat) : String :=
  String.mk (pr_permissions_i 3 0 mode)

/-- The text printed by `pr_permissions(mode)`. -/
def pr_permissions (mode : Nat) : String :=
  "Permissions:\t\t" ++ perm_string mode ++ "\n"

/-! ## Size formatter -/

/-- The text printed by `pr_size(size)`; `mb` is the `int` 1048576 and
`mb * 1024` the `int` 1073741824, both converted to `size_t` in the
comparisons. -/
def pr_size (size : Nat) : String :=
  let mb := 1024 * 1024
  "Size:\t\t\t" ++
    (if 1024 ≤ size ∧ size < mb then
      printf_2f (to_float size) 1024 ++ "K\n"
    else if mb ≤ size ∧ size < mb * 1024 then
      printf_2f (to_float size) mb ++ "M\n"
    else if mb * 1024 < size then
      printf_2f (to_float size) (mb * 1024) ++ "G\n"
    else
      toString size ++ "\n")

/-! ## Type classifier -/

/-- The name `ret_ftype(mode)` returns. -/
def ret_ftype (mode : Nat) : String :=
  let t := mode &&& S_IFMT
  if t = S_IFDIR then "Directory"
  else if t = S_IFBLK then "Block device"
  else if t = S_IFCHR then "Char. device"
  else if t = S_IFREG then "Regular file"
  else if t = S_IFIFO then "Pipe/FIFO"
  else if t = S_IFSOCK then "Socket"
  else if t = S_IFLNK then "Symbolic link"
  else "Unknown"

/-! ## Outcomes of a call -/

/-- How a call of one of the printing functions ends, with the text written to
standard output up to that point. -/
inductive Outcome where
  /-- The function returned to its caller. -/
  | returned (out : String)
  /-- The function called `exit(status)`. -/
  | exited (out : String) (status : Nat)
  /-- The function ran into undefined behaviour (a null or uninitialised
  pointer was used, or a buffer overrun). -/
  | undefined (out : String)
  /-- The loop budget of the model ran out; no run of the program ends so. -/
  | unfinished (out : String)
deriving DecidableEq, Repr

/-- The text written to standard output. -/
def Outcome.out : Outcome → String
  | .returned o => o
  | .exited o _ => o
  | .undefined o => o
  | .unfinished o => o

/-- Sequencing of two calls: the second runs only when the first returned. -/
def Outcome.seq (a b : Outcome) : Outcome :=
  match a with
  | .returned o =>
    match b with
    | .returned o2 => .returned (o ++ o2)
    | .exited o2 c => .exited (o ++ o2) c
    | .undefined o2 => .undefined (o ++ o2)
    | .unfinished o2 => .unfinished (o ++ o2)
  | other => other

/-! ## The environment -/

/-- One entry of a directory stream (`struct dirent`). -/
structure Dirent where
  /-- Name of the entry. -/
  d_name : String
  /-- Type of the entry. -/
  d_type : Nat
deriving DecidableEq, Repr

/-- The fields of `struct stat` the report reads. -/
structure Stat where
  /-- Device of the file system holding the entry. -/
  st_dev : Nat
  /-- Inode number. -/
  st_ino : Nat
  /-- Type and permission bits. -/
  st_mode : Nat
  /-- Owner. -/
  st_uid : Nat
  /-- Group. -/
  st_gid : Nat
  /-- Device the entry stands for (device files). -/
  st_rdev : Nat
  /-- Size in bytes. -/
  st_size : Nat
deriving DecidableEq, Repr

/-- The answers of the operating system and the C library to the calls the
report makes.  A failing call is `.error errno` (or `none`). -/
structure Sys where
  /-- The result of `realpath(fname, NULL)`. -/
  realpath : String → Except Nat String
  /-- The result of `malloc(size)`. -/
  malloc : Nat → Except Nat Unit
  /-- The result of the `n`-th `realloc` (from 0) for the requested size. -/
  realloc : Nat → Nat → Except Nat Unit
  /-- The state met by the `n`-th `getcwd` (from 0): a failure not caused by
  the buffer, or the working directory. -/
  getcwd : Nat → Except Nat String
  /-- The content of `/proc/self/mountinfo`; `none` when `fopen` fails. -/
  mountinfo : Option String
  /-- The user name `getpwuid` finds. -/
  getpwuid : Nat → Option String
  /-- The group name `getgrgid` finds. -/
  getgrgid : Nat → Option String
  /-- The result of `opendir(fname)`: the entries `readdir` then yields. -/
  opendir : String → Except Nat (List Dirent)
  /-- The value of `errno` when `perror(msg)`, called with `errno` equal to the
  second argument, returns: writing the message can overwrite `errno`. -/
  perror : String → Nat → Nat

/-! ## Path resolver -/

/-- The call `getcwd(buf, size)` made as the `n`-th one: `EINVAL` for a zero
size, `ERANGE` when the working directory and its terminator do not fit. -/
def getcwd (sys : Sys) (n size : Nat) : Except Nat String :=
  if size = 0 then .error EINVAL
  else
    match sys.getcwd n with
    | .error e => .error e
    | .ok cwd => if cwd.length + 1 ≤ size then .ok cwd else .error ERANGE

/-- The end of the `do ... while` loop of `pr_path`. -/
inductive Grow where
  /-- A `realloc` failed: `exit(errno)`. -/
  | exit (errno : Nat)
  /-- The loop was left with buffer size `psize` and the last `getcwd` result. -/
  | done (psize : Nat) (r : Except Nat String)
  /-- The loop budget ran out. -/
  | more
deriving Repr

/-- The loop `do { psize *= 2; path = realloc(path, psize); ...; path = getcwd(path, psize); }
while (path == NULL && errno == ERANGE)`; `n` counts the iterations done and
`psize` is a `size_t`. -/
def pr_path_grow (sys : Sys) : Nat → Nat → Nat → Grow
  | 0, _, _ => .more
  | fuel + 1, n, psize =>
    let psize2 := (psize * 2) % 2 ^ 64
    match sys.realloc n psize2 with
    | .error e => .exit e
    | .ok _ =>
      match getcwd sys (n + 1) psize2 with
      | .error e => if e = ERANGE then pr_path_grow sys fuel (n + 1) psize2 else .done psize2 (.error e)
      | .ok cwd => .done psize2 (.ok cwd)

/-- The tail of `pr_path`: `strcat(path, "/"); strcat(path, fname); printf("%s\n\n", path)`
on a buffer of `psize` bytes; `path` is `none` for a null pointer. -/
def pr_path_cat (out : String) (psize : Nat) (path : Option String) (fname : String) : Outcome :=
  match path with
  | none => .undefined out
  | some cwd =>
    if cwd.length + 1 + fname.length + 1 ≤ psize then
      .returned (out ++ cwd ++ "/" ++ fname ++ "\n\n")
    else .undefined out

/-- The working-directory branch of `pr_path` (from `size_t psize = ...` on).
The loop is given a budget of 64 turns: the size doubles modulo `2 ^ 64`, so it
is zero, and `getcwd` fails with `EINVAL`, after 64 turns at the latest
(`pr_path_grow_finishes`).  Each `exit(errno)` follows a `perror` and passes the
value of `errno` that call leaves. -/
def pr_path_cwd (sys : Sys) (fname : String) : Outcome :=
  let psize := (4096 + (fname.length + 1)) % 2 ^ 64
  match sys.malloc psize with
  | .error e => .exited "Path: " (sys.perror "Malloc" e)
  | .ok _ =>
    match getcwd sys 0 psize with
    | .ok cwd => pr_path_cat "Path: " psize (some cwd) fname
    | .error e =>
      if e = EACCES then pr_path_cat "Path: Permission denied\n\n" psize none fname
      else if e = ERANGE then
        match pr_path_grow sys 64 0 psize with
        | .exit e2 => .exited "Path: " (sys.perror "Realloc" e2)
        | .done psize2 (.ok cwd) => pr_path_cat "Path: " psize2 (some cwd) fname
        | .done psize2 (.error _) => pr_path_cat "Path: " psize2 none fname
        | .more => .unfinished "Path: "
      else .exited "Path: " (sys.perror "Getcwd" e)

/-- The outcome of `pr_path(fname)`. -/
def pr_path (sys : Sys) (fname : String) : Outcome :=
  match fname.data with
  | '/' :: _ => .returned ("Path: " ++ fname ++ "\n\n")
  | c0 :: rest =>
    if c0 = '.' ∧ (rest.head? = some '/' ∨ rest.head? = some '.') then
      match sys.realpath fname with
      | .error e => if e = EACCES then .returned "Path: Permission denied\n\n" else .returned "Path: "
      | .ok p => .returned ("Path: " ++ p ++ "\n\n")
    else pr_path_cwd sys fname
  | [] => pr_path_cwd sys fname

/-! ## Inode -/

/-- The text printed by `pr_inode(ino)`. -/
def pr_inode (ino : Nat) : String :=
  "Inode:\t\t\t" ++ toString (to_long ino) ++ "\n"

/-! ## Mount resolver -/

/-- The characters `fgets` stores when at most `k` may be read: up to and
including the first newline; paired with the rest of the stream. -/
def fgets_take : Nat → List Char → List Char × List Char
  | 0, s => ([], s)
  | _ + 1, [] => ([], [])
  | k + 1, c :: s =>
    if c = '\n' then ([c], s)
    else ((c :: (fgets_take k s).1), (fgets_take k s).2)

/-- The call `fgets(buf, size, fp)`: `none` at end of file, else the string
stored in `buf` (at most `size - 1` characters) and the rest of the stream. -/
def fgets (size : Nat) (stream : List Char) : Option (List Char × List Char) :=
  match stream with
  | [] => none
  | _ :: _ => some (fgets_take (size - 1) stream)

/-- The call `strtok` on the text `s` at the scanning position: leading
delimiters are skipped; `none` (a null pointer) when nothing is left, else the
token up to the next delimiter; paired with the new scanning position, just
after the delimiter that ended the token. -/
def strtok (s delim : List Char) : Option (List Char) × List Char :=
  match s.dropWhile (fun c => decide (c ∈ delim)) with
  | [] => (none, [])
  | c :: p =>
    (some ((c :: p).takeWhile (fun x => !decide (x ∈ delim))),
      ((c :: p).dropWhile (fun x => !decide (x ∈ delim))).drop 1)

/-- The call `strstr(hay, needle)`: the text from the first occurrence of
`needle` on, `none` (a null pointer) when there is none. -/
def strstr : List Char → List Char → Option (List Char)
  | [], needle => if needle = [] then some [] else none
  | c :: hay, needle =>
    if needle.isPrefixOf (c :: hay) then some (c :: hay) else strstr hay needle

/-- The variables `loc` and `tok` of `pr_home` when its loop is left. -/
inductive Scan where
  /-- The loop body never ran: `loc` and `tok` were never assigned. -/
  | unset
  /-- The last line read had no match: `loc` is null. -/
  | nomatch
  /-- A line matched: `loc` is not null and `tok` is the second `strtok`
  result (`none` for a null pointer). -/
  | found (tok : Option (List Char))
  /-- The first `strtok` of a line returned a null pointer, which `strstr`
  then reads. -/
  | nulltok
  /-- The loop budget ran out. -/
  | more
deriving DecidableEq, Repr

/-- The loop `while (fgets(buf, sizeof(buf), fp))` of `pr_home` over the rest
of the file, entered with the variables in state `st`. -/
def pr_home_scan (dev_ver : List Char) : Nat → List Char → Scan → Scan
  | 0, _, _ => .more
  | fuel + 1, stream, st =>
    match fgets 256 stream with
    | none => st
    | some (buf, stream2) =>
      match strtok buf ['-'] with
      | (none, _) => .nulltok
      | (some tok, save) =>
        match strstr tok dev_ver with
        | none => pr_home_scan dev_ver fuel stream2 .nomatch
        | some _ => .found (strtok (strtok save [' ', '-', ':']).2 [' ', '-', ':']).1

/-- The string `sprintf(dev_ver, "%d:%d", (int)dev >> 8, (int)dev & 0xff)` stores.
The shift of a negative `int` is arithmetic; `& 0xff` acts on the 32-bit
pattern `dev % 2 ^ 32` of `(int)dev` and gives a non-negative `int`.  The text
has at most 12 characters, so the call into the 128-byte buffer does not fail
and the branch `sprintf(...) < 0` of `pr_home` is never taken. -/
def dev_ver (dev : Nat) : String :=
  toString (to_int dev >>> 8) ++ ":" ++ toString ((dev % 2 ^ 32) &&& 0xff)

/-- The outcome of `pr_home(dev)` for the given content of the mount table
(`none` when it cannot be opened). -/
def pr_home (mountinfo : Option String) (dev : Nat) : Outcome :=
  let head := "Home:\t\t\t" ++ toString (to_long dev) ++ "\t\t"
  match mountinfo with
  | none => .returned (head ++ "\n")
  | some text =>
    match pr_home_scan (dev_ver dev).data (text.length + 1) text.data .unset with
    | .unset => .undefined head
    | .nomatch => .returned (head ++ " " ++ "\n")
    | .found (some tok) => .returned (head ++ String.mk tok ++ "\n")
    | .found none => .undefined head
    | .nulltok => .undefined head
    | .more => .unfinished head

/-! ## Identity resolver -/

/-- The text printed by `pr_uid(uid)`. -/
def pr_uid (sys : Sys) (uid : Nat) : String :=
  "UID:\t\t\t" ++ toString uid ++ "\t\t"
    ++ (match sys.getpwuid uid with
        | some name => name
        | none => " ") ++ "\n"

/-- The outcome of `pr_gid(gid)`: `gr->gr_name` is read without a test of `gr`. -/
def pr_gid (sys : Sys) (gid : Nat) : Outcome :=
  match sys.getgrgid gid with
  | some name => .returned ("GID:\t\t\t" ++ toString gid ++ "\t\t" ++ name ++ "\n")
  | none => .undefined ""

/-- The outcome of `pr_owners(uid, gid)`. -/
def pr_owners (sys : Sys) (uid gid : Nat) : Outcome :=
  (Outcome.returned (pr_uid sys uid)).seq (pr_gid sys gid)

/-! ## Type field -/

/-- The test `S_ISDIR(mode)`. -/
def S_ISDIR (mode : Nat) : Bool := decide (mode &&& S_IFMT = S_IFDIR)
/-- The test `S_ISBLK(mode)`. -/
def S_ISBLK (mode : Nat) : Bool := decide (mode &&& S_IFMT = S_IFBLK)
/-- The test `S_ISCHR(mode)`. -/
def S_ISCHR (mode : Nat) : Bool := decide (mode &&& S_IFMT = S_IFCHR)

/-- The text printed by `pr_type(fstat)`. -/
def pr_type (st : Stat) : String :=
  "Type:\t\t\t" ++ ret_ftype st.st_mode ++ "\n"
    ++ (if S_ISBLK st.st_mode || S_ISCHR st.st_mode then
          "Dev. ID:\t\t" ++ toString (to_long st.st_rdev) ++ "\n"
        else "")

/-! ## Entry counter -/

/-- The loop `while ((ent = readdir(d)) != NULL)` of `get_entcount` over the
entries still to come; `count` is an `int` kept as its 32-bit pattern, so that
`count++` is an addition modulo `2 ^ 32`. -/
def get_entcount_loop : List Dirent → Nat → Nat
  | [], count => count
  | ent :: rest, count =>
    if ent.d_name = "." ∨ ent.d_name = ".." then get_entcount_loop rest count
    else if ent.d_type = DT_REG ∨ ent.d_type = DT_DIR ∨ ent.d_type = DT_LNK then
      get_entcount_loop rest ((count + 1) % 2 ^ 32)
    else get_entcount_loop rest count

/-- The text printed by `get_entcount(fname)`, given the result of `opendir`. -/
def get_entcount (dir : Except Nat (List Dirent)) : String :=
  "# of entries:\t\t" ++
    (match dir with
     | .error e =>
       if e = EACCES then "Permission denied\n"
       else if e = ELOOP then "Unknown (symlink loop)\n"
       else ""
     | .ok ents => toString (to_int (get_entcount_loop ents 0)) ++ "\n")

/-! ## Report assembler -/

/-- The outcome of `print_inode_info(fname, fstat)`. -/
def print_inode_info (sys : Sys) (fname : String) (st : Stat) : Outcome :=
  (pr_path sys fname).seq <|
  (Outcome.returned (pr_inode st.st_ino)).seq <|
  (pr_home sys.mountinfo st.st_dev).seq <|
  (pr_owners sys st.st_uid st.st_gid).seq <|
  Outcome.returned
    (pr_type st
      ++ (if S_ISDIR st.st_mode then get_entcount (sys.opendir fname) else "")
      ++ pr_permissions st.st_mode
      ++ pr_size st.st_size)

/-! ## Definitions used in the statements -/

/-- The character the decoder is to print at position `j` for `mode`. -/
def perm_char (mode j : Nat) : Char :=
  if mode.testBit (8 - j) then ['r', 'w', 'x'].getD (j % 3) '-' else '-'

/-- The entries `get_entcount` counts: neither "." nor "..", and a regular
file, a directory or a symbolic link. -/
def counted (e : Dirent) : Bool :=
  decide (e.d_name ≠ "." ∧ e.d_name ≠ ".." ∧
    (e.d_type = DT_REG ∨ e.d_type = DT_DIR ∨ e.d_type = DT_LNK))

/-- A mount table of one line, the example line of `proc(5)`. -/
def mountinfo_example : String :=
  "36 35 98:0 /mnt1 /mnt2 rw,noatime master:1 - ext3 /dev/root rw,errors=continue\n"

/-- A directory with three regular files, a broken symbolic link, a socket and
the entries "." and "..". -/
def dir_example : List Dirent :=
  [⟨".", DT_DIR⟩, ⟨"..", DT_DIR⟩, ⟨"a", DT_REG⟩, ⟨"b", DT_REG⟩, ⟨"sock", 12⟩,
   ⟨"c", DT_REG⟩, ⟨"broken", DT_LNK⟩]

/-- An environment in which every call succeeds: the working directory is
"/home/user", the mount table is the example line, user and group 1000 are
known and every directory lists as `dir_example`.  Standard error is a pipe or
a file, where `perror` leaves `errno` at `EINVAL` (22). -/
def sys_example : Sys where
  realpath := fun _ => .error 2
  malloc := fun _ => .ok ()
  realloc := fun _ _ => .ok ()
  getcwd := fun _ => .ok "/home/user"
  mountinfo := some mountinfo_example
  getpwuid := fun u => if u = 1000 then some "user" else none
  getgrgid := fun g => if g = 1000 then some "users" else none
  opendir := fun _ => .ok dir_example
  perror := fun _ _ => 22

/-- A regular file of 2048 bytes with mode rw-r--r--. -/
def stat_file : Stat where
  st_dev := 25088
  st_ino := 1234
  st_mode := 0o100644
  st_uid := 1000
  st_gid := 1000
  st_rdev := 0
  st_size := 2048

/-- A directory with mode rwxr-xr-x. -/
def stat_dir : Stat where
  st_dev := 25088
  st_ino := 77
  st_mode := 0o040755
  st_uid := 1000
  st_gid := 1000
  st_rdev := 0
  st_size := 4096

/-- The major number of a device, `gnu_dev_major` of glibc's
`<sys/sysmacros.h>`. -/
def gnu_dev_major (dev : Nat) : Nat :=
  ((dev >>> 32) &&& 0xfffff000) ||| ((dev >>> 8) &&& 0xfff)

/-- The minor number of a device, `gnu_dev_minor` of glibc's
`<sys/sysmacros.h>`. -/
def gnu_dev_minor (dev : Nat) : Nat :=
  ((dev >>> 12) &&& 0xffffff00) ||| (dev &&& 0xff)

/-- The canonicalising branch of `pr_path`: what is printed for the result of
`realpath(fname, NULL)`. -/
def pr_path_real (r : Except Nat String) : Outcome :=
  match r with
  | .error e => if e = EACCES then .returned "Path: Permission denied\n\n" else .returned "Path: "
  | .ok p => .returned ("Path: " ++ p ++ "\n\n")

/-- The test `fname[0] == '.' && (fname[1] == '/' || fname[1] == '.')` of
`pr_path`. -/
def dot_test (fname : String) : Bool :=
  match fname.data with
  | '.' :: c :: _ => c == '/' || c == '.'
  | _ => false

/-- The environment `sys_example` with a `realpath` that resolves every path to
"/real/path". -/
def sys_canon : Sys :=
  { sys_example with realpath := fun _ => .ok "/real/path" }

/-- The environment `sys_example` after the working directory was removed:
`getcwd` fails with `ENOENT` (2). -/
def sys_nocwd : Sys :=
  { sys_example with getcwd := fun _ => .error 2 }

/-- The environment `sys_example` with a working directory that may not be
read: `getcwd` fails with `EACCES`. -/
def sys_eacces : Sys :=
  { sys_example with getcwd := fun _ => .error EACCES }

/-- The environment `sys_example` out of memory: `malloc` fails with
`ENOMEM` (12). -/
def sys_nomem : Sys :=
  { sys_example with malloc := fun _ => .error 12 }

/-- A working directory of 4096 characters: sixteen components of 255
characters, each after a slash. -/
def deep_cwd : String :=
  String.mk (List.flatten (List.replicate 16 ('/' :: List.replicate 255 'd')))

/-- The environment `sys_example` in the working directory `deep_cwd`. -/
def sys_deep : Sys :=
  { sys_example with getcwd := fun _ => .ok deep_cwd }

/-- A working directory of 10240 characters: forty components of 255
characters, each after a slash. -/
def long_cwd : String :=
  String.mk (List.flatten (List.replicate 40 ('/' :: List.replicate 255 'd')))

/-- The environment `sys_example` in the working directory `long_cwd`, with a
`realloc` that succeeds once and then fails with `ENOMEM` (12). -/
def sys_realloc2 : Sys :=
  { sys_example with
    getcwd := fun _ => .ok long_cwd
    realloc := fun n _ => if n = 0 then .ok () else .error 12 }

/-- A device file: the block device 8:1 with mode rw-rw----. -/
def stat_blk : Stat where
  st_dev := 5
  st_ino := 321
  st_mode := 0o060660
  st_uid := 0
  st_gid := 6
  st_rdev := 2049
  st_size := 0

/-! ## Properties of the permission decoder -/

/-- The test `(bits & 0x100) == 0x100` reads bit 8. -/
theorem and_0x100 (x : Nat) : (x &&& 0x100 = 0x100) ↔ x.testBit 8 = true := by
  have h := Nat.and_two_pow x 8
  have e : (0x100 : Nat) = 2 ^ 8 := by norm_num
  rw [e, h]
  cases x.testBit 8 <;> simp

/-- The inner loop prints the three characters of group `i`. -/
theorem pr_permissions_k_group (mode i : Nat) (hi : i < 3) :
    pr_permissions_k 3 0 ((mode &&& (0x1C0 >>> (3 * i))) <<< (3 * i))
      = [perm_char mode (3 * i), perm_char mode (3 * i + 1), perm_char mode (3 * i + 2)] := by
  have hi3 : i = 0 ∨ i = 1 ∨ i = 2 := by omega
  have c6 : Nat.testBit 448 6 = true := by decide
  have c7 : Nat.testBit 448 7 = true := by decide
  have c8 : Nat.testBit 448 8 = true := by decide
  have c3 : Nat.testBit 56 3 = true := by decide
  have c4 : Nat.testBit 56 4 = true := by decide
  have c5 : Nat.testBit 56 5 = true := by decide
  have c1 : Nat.testBit 7 1 = true := by decide
  have c2 : Nat.testBit 7 2 = true := by decide
  rcases hi3 with rfl | rfl | rfl <;>
    simp [pr_permissions_k, and_0x100, perm_letter, perm_char, Nat.testBit_shiftLeft,
      Nat.testBit_and, c1, c2, c3, c4, c5, c6, c7, c8] <;>
    split_ifs <;> rfl

/-- The nine characters of the decoder, position by position. -/
theorem perm_string_data (mode : Nat) :
    (perm_string mode).data = (List.range 9).map (perm_char mode) := by
  have h0 := pr_permissions_k_group mode 0 (by decide)
  have h1 := pr_permissions_k_group mode (0 + 1) (by decide)
  have h2 := pr_permissions_k_group mode (0 + 1 + 1) (by decide)
  simp only [perm_string, pr_permissions_i, h0, h1, h2]
  rfl

/-- The decoded string has nine characters. -/
theorem perm_string_length (mode : Nat) : (perm_string mode).length = 9 := by
  show (perm_string mode).data.length = 9
  rw [perm_string_data]
  simp

/-- Every value of `perm_char` is one of the four characters. -/
theorem perm_char_mem (mode j : Nat) : perm_char mode j ∈ ['r', 'w', 'x', '-'] := by
  unfold perm_char
  have h3 : j % 3 = 0 ∨ j % 3 = 1 ∨ j % 3 = 2 := by omega
  split_ifs
  · rcases h3 with h | h | h <;> simp [h]
  · simp

/-- Modes that agree under a mask covering the nine permission bits agree on
each of these bits. -/
theorem testBit_of_and_eq (m1 m2 j : Nat) (h : m1 &&& 0o170777 = m2 &&& 0o170777) (hj : j < 9) :
    m1.testBit (8 - j) = m2.testBit (8 - j) := by
  have hb : ∀ i, i < 9 → Nat.testBit 0o170777 i = true := by decide
  have h1 := Nat.testBit_and m1 0o170777 (8 - j)
  have h2 := Nat.testBit_and m2 0o170777 (8 - j)
  rw [hb (8 - j) (by omega), Bool.and_true] at h1 h2
  rw [← h1, ← h2, h]

/-- C1: for every mode, `pr_permissions` prints its label, a string of nine
characters and a newline; the character at position `j` (0 to 8, from the left)
is letter `j mod 3` of "rwx" when bit `8 - j` of the mode is set and '-'
otherwise, so that mode 0o644 gives "rw-r--r--". -/
theorem pr_permissions_decodes (mode j : Nat) (hj : j ≤ 8) :
    pr_permissions mode = "Permissions:\t\t" ++ perm_string mode ++ "\n" ∧
    (perm_string mode).length = 9 ∧
    (perm_string mode).data[j]? =
      (if mode.testBit (8 - j) = true then ['r', 'w', 'x'][j % 3]? else some '-') ∧
    perm_string 0o644 = "rw-r--r--" := by
  refine ⟨rfl, perm_string_length mode, ?_, by decide⟩
  rw [perm_string_data]
  have hj9 : j < 9 := by omega
  have h3 : j % 3 = 0 ∨ j % 3 = 1 ∨ j % 3 = 2 := by omega
  simp only [List.getElem?_map, List.getElem?_range hj9, Option.map_some', perm_char]
  split_ifs
  · rcases h3 with h | h | h <;> simp [h]
  · rfl

/-- The statement of C1 at mode 0o755, position 2 (owner execute bit). -/
theorem pr_permissions_decodes_witness :
    (2 : Nat) ≤ 8 ∧ (perm_string 0o755).data[2]? = some 'x' :=
  ⟨by decide, by
    have h := (pr_permissions_decodes 0o755 2 (by decide)).2.2.1
    simpa using h⟩

/-- C9: the decoder returns exactly nine characters, each of them one of
'r', 'w', 'x', '-', and two modes that agree on the bits of the mask 0o170777
(so differ at most in setuid, setgid, sticky or higher bits) decode to the same
string. -/
theorem perm_string_invariant (m1 m2 : Nat) (h : m1 &&& 0o170777 = m2 &&& 0o170777) :
    (perm_string m1).length = 9 ∧
    (∀ c ∈ (perm_string m1).data, c ∈ ['r', 'w', 'x', '-']) ∧
    perm_string m1 = perm_string m2 ∧
    pr_permissions m1 = pr_permissions m2 := by
  have hdata : (perm_string m1).data = (perm_string m2).data := by
    rw [perm_string_data, perm_string_data]
    apply List.map_congr_left
    intro j hj
    have hj9 : j < 9 := List.mem_range.mp hj
    unfold perm_char
    rw [testBit_of_and_eq m1 m2 j h hj9]
  have heq : perm_string m1 = perm_string m2 := String.ext hdata
  refine ⟨perm_string_length m1, ?_, heq, ?_⟩
  · intro c hc
    rw [perm_string_data] at hc
    obtain ⟨j, _, rfl⟩ := List.mem_map.mp hc
    exact perm_char_mem m1 j
  · unfold pr_permissions
    rw [heq]

/-- The statement of C9 at a mode and the same mode with the setuid bit. -/
theorem perm_string_invariant_witness :
    (0o100755 : Nat) &&& 0o170777 = 0o104755 &&& 0o170777 ∧
    perm_string 0o100755 = perm_string 0o104755 :=
  ⟨by decide, (perm_string_invariant 0o100755 0o104755 (by decide)).2.2.1⟩

/-! ## Properties of the size formatter -/

/-- A decimal digit character is a digit. -/
theorem digitChar_isDigit (d : Nat) (hd : d < 10) : (Nat.digitChar d).isDigit = true := by
  interval_cases d <;> decide

/-- The digits produced by `Nat.toDigitsCore` in base ten are decimal digits. -/
theorem toDigitsCore_isDigit (fuel : Nat) : ∀ (n : Nat) (ds : List Char),
    (∀ c ∈ ds, c.isDigit = true) → ∀ c ∈ Nat.toDigitsCore 10 fuel n ds, c.isDigit = true := by
  induction fuel with
  | zero => intro n ds hds c hc; exact hds c (by simpa [Nat.toDigitsCore] using hc)
  | succ f ih =>
    intro n ds hds c hc
    have hd : (Nat.digitChar (n % 10)).isDigit = true := digitChar_isDigit _ (Nat.mod_lt _ (by decide))
    have hcons : ∀ x ∈ Nat.digitChar (n % 10) :: ds, x.isDigit = true := by
      intro x hx
      rcases List.mem_cons.mp hx with rfl | hx
      · exact hd
      · exact hds x hx
    simp only [Nat.toDigitsCore] at hc
    split_ifs at hc
    · exact hcons c hc
    · exact ih _ _ hcons c hc

/-- The decimal text of a natural number consists of digits. -/
theorem toString_isDigit (n : Nat) : ∀ c ∈ (toString n).data, c.isDigit = true := by
  intro c hc
  have hc2 : c ∈ Nat.toDigits 10 n := hc
  exact toDigitsCore_isDigit _ _ [] (by simp) c hc2

/-- The text of `%.2f` consists of digits and the point. -/
theorem printf_2f_chars (num den : Nat) :
    ∀ c ∈ (printf_2f num den).data, c.isDigit = true ∨ c = '.' := by
  intro c hc
  simp only [printf_2f, String.data_append, List.mem_append, List.mem_cons, List.mem_singleton,
    List.not_mem_nil, or_false] at hc
  rcases hc with (hc | hc) | hc | hc
  · exact Or.inl (toString_isDigit _ c hc)
  · have : c = '.' := by simpa using hc
    exact Or.inr this
  · exact Or.inl (hc ▸ digitChar_isDigit _ (Nat.mod_lt _ (by decide)))
  · exact Or.inl (hc ▸ digitChar_isDigit _ (Nat.mod_lt _ (by decide)))

/-- A value below `2 ^ 24` is a `float`. -/
theorem to_float_small (n : Nat) (h : n < 2 ^ 24) : to_float n = n := by
  unfold to_float
  rw [if_pos h]

/-- The rounded quotient is within half a unit of the exact quotient. -/
theorem round_half_even_near (num den : Nat) (hden : 0 < den) :
    2 * (round_half_even num den * den) ≤ 2 * num + den ∧
    2 * num ≤ 2 * (round_half_even num den * den) + den := by
  have hdm := Nat.div_add_mod num den
  have hlt := Nat.mod_lt num hden
  rw [Nat.mul_comm] at hdm
  unfold round_half_even
  simp only
  generalize num / den = q at *
  generalize num % den = r at *
  have hq1 : (q + 1) * den = q * den + den := by rw [Nat.add_mul, Nat.one_mul]
  split_ifs <;> try rw [hq1]
  all_goals generalize q * den = m at *
  all_goals constructor <;> omega

/-- The scaled branch for kilobytes. -/
theorem pr_size_K (b : Nat) (h1 : 1024 ≤ b) (h2 : b < 1048576) :
    pr_size b = "Size:\t\t\t" ++ (printf_2f (to_float b) 1024 ++ "K\n") := by
  have h : 1024 ≤ b ∧ b < 1024 * 1024 := ⟨h1, by omega⟩
  unfold pr_size
  simp only
  rw [if_pos h]

/-- The scaled branch for megabytes. -/
theorem pr_size_M (b : Nat) (h1 : 1048576 ≤ b) (h2 : b < 1073741824) :
    pr_size b = "Size:\t\t\t" ++ (printf_2f (to_float b) 1048576 ++ "M\n") := by
  have hk : ¬ (1024 ≤ b ∧ b < 1024 * 1024) := by omega
  have h : 1024 * 1024 ≤ b ∧ b < 1024 * 1024 * 1024 := ⟨by omega, by omega⟩
  unfold pr_size
  simp only
  rw [if_neg hk, if_pos h]

/-- The scaled branch for gigabytes. -/
theorem pr_size_G (b : Nat) (h1 : 1073741824 < b) :
    pr_size b = "Size:\t\t\t" ++ (printf_2f (to_float b) 1073741824 ++ "G\n") := by
  have hk : ¬ (1024 ≤ b ∧ b < 1024 * 1024) := by omega
  have hm : ¬ (1024 * 1024 ≤ b ∧ b < 1024 * 1024 * 1024) := by omega
  have h : 1024 * 1024 * 1024 < b := by omega
  unfold pr_size
  simp only
  rw [if_neg hk, if_neg hm, if_pos h]

/-- The unscaled branch. -/
theorem pr_size_raw (b : Nat) (h : b < 1024 ∨ b = 1073741824) :
    pr_size b = "Size:\t\t\t" ++ (toString b ++ "\n") := by
  have hk : ¬ (1024 ≤ b ∧ b < 1024 * 1024) := by omega
  have hm : ¬ (1024 * 1024 ≤ b ∧ b < 1024 * 1024 * 1024) := by omega
  have hg : ¬ (1024 * 1024 * 1024 < b) := by omega
  unfold pr_size
  simp only
  rw [if_neg hk, if_neg hm, if_neg hg]

/-- C2: the unit is chosen by range.  Below 1024 the plain decimal integer is
printed with no suffix; from 1024 up to, not including, 1048576 a value with
suffix K; from 1048576 up to, not including, 1073741824 a value with suffix M;
above 1073741824 a value with suffix G.  A value consists of digits and a
point, so the letter is the only unit mark. -/
theorem pr_size_unit (b : Nat) :
    (b < 1024 → pr_size b = "Size:\t\t\t" ++ toString b ++ "\n") ∧
    (1024 ≤ b → b < 1048576 →
      pr_size b = "Size:\t\t\t" ++ printf_2f (to_float b) 1024 ++ "K\n") ∧
    (1048576 ≤ b → b < 1073741824 →
      pr_size b = "Size:\t\t\t" ++ printf_2f (to_float b) 1048576 ++ "M\n") ∧
    (1073741824 < b →
      pr_size b = "Size:\t\t\t" ++ printf_2f (to_float b) 1073741824 ++ "G\n") ∧
    (∀ num den, ∀ c ∈ (printf_2f num den).data, c.isDigit = true ∨ c = '.') ∧
    (∀ c ∈ (toString b).data, c.isDigit = true) ∧
    pr_size 0 = "Size:\t\t\t0\n" ∧ pr_size 1023 = "Size:\t\t\t1023\n" ∧
    pr_size 1048576 = "Size:\t\t\t1.00M\n" := by
  refine ⟨?_, ?_, ?_, ?_, printf_2f_chars, toString_isDigit b, by decide, by decide, by decide⟩
  · intro h
    rw [pr_size_raw b (Or.inl h), String.append_assoc]
  · intro h1 h2
    rw [pr_size_K b h1 h2, String.append_assoc]
  · intro h1 h2
    rw [pr_size_M b h1 h2, String.append_assoc]
  · intro h1
    rw [pr_size_G b h1, String.append_assoc]

/-- The statement of C2 at 5000 bytes, 5000000 bytes and 5000000000 bytes. -/
theorem pr_size_unit_witness :
    pr_size 5000 = "Size:\t\t\t4.88K\n" ∧ pr_size 5000000 = "Size:\t\t\t4.77M\n" ∧
    pr_size 5000000000 = "Size:\t\t\t4.66G\n" ∧ pr_size 17 = "Size:\t\t\t17\n" :=
  ⟨((pr_size_unit 5000).2.1 (by decide) (by decide)).trans (by decide),
   ((pr_size_unit 5000000).2.2.1 (by decide) (by decide)).trans (by decide),
   ((pr_size_unit 5000000000).2.2.2.1 (by decide)).trans (by decide),
   ((pr_size_unit 17).1 (by decide)).trans (by decide)⟩

/-- C10: for a byte count from 1024 up to, not including, 1048576 the quotient
by 1024 is printed as an integer part, a point and exactly two fraction digits,
followed by K; the printed number `h / 100` is within 0.005 of the exact
quotient.  So 1024 is printed as "1.00K" and 2048 as "2.00K". -/
theorem pr_size_kilo (b : Nat) (h1 : 1024 ≤ b) (h2 : b < 1048576) :
    ∃ h : Nat,
      pr_size b = "Size:\t\t\t" ++ toString (h / 100) ++ "."
        ++ String.mk [Nat.digitChar (h / 10 % 10), Nat.digitChar (h % 10)] ++ "K\n" ∧
      |(h : ℚ) / 100 - (b : ℚ) / 1024| ≤ 5 / 1000 ∧
      pr_size 1024 = "Size:\t\t\t1.00K\n" ∧ pr_size 2048 = "Size:\t\t\t2.00K\n" := by
  refine ⟨round_half_even (b * 100) 1024, ?_, ?_, by decide, by decide⟩
  · rw [pr_size_K b h1 h2, to_float_small b (by omega)]
    simp only [printf_2f, String.append_assoc]
  · obtain ⟨hle, hge⟩ := round_half_even_near (b * 100) 1024 (by decide)
    have hle2 : (2 : ℚ) * ((round_half_even (b * 100) 1024 : ℚ) * 1024) ≤ 2 * ((b : ℚ) * 100) + 1024 := by
      exact_mod_cast hle
    have hge2 : (2 : ℚ) * ((b : ℚ) * 100) ≤ 2 * ((round_half_even (b * 100) 1024 : ℚ) * 1024) + 1024 := by
      exact_mod_cast hge
    rw [abs_le]
    constructor <;> linarith

/-- The statement of C10 at 1536 bytes, printed as "1.50K". -/
theorem pr_size_kilo_witness :
    ∃ h : Nat,
      pr_size 1536 = "Size:\t\t\t" ++ toString (h / 100) ++ "."
        ++ String.mk [Nat.digitChar (h / 10 % 10), Nat.digitChar (h % 10)] ++ "K\n" ∧
      |(h : ℚ) / 100 - (1536 : ℚ) / 1024| ≤ 5 / 1000 := by
  obtain ⟨h, e, hb, _⟩ := pr_size_kilo 1536 (by decide) (by decide)
  exact ⟨h, e, by simpa using hb⟩

/-! ## Properties of the type classifier -/

/-- The type bits of a mode are one of sixteen patterns. -/
theorem type_bits_pattern (mode : Nat) :
    mode &&& 0o170000 = (mode / 2 ^ 12 % 2 ^ 4) * 2 ^ 12 := by
  apply Nat.eq_of_testBit_eq
  intro i
  rw [Nat.testBit_and, ← Nat.shiftLeft_eq, Nat.testBit_shiftLeft, Nat.testBit_mod_two_pow,
    ← Nat.shiftRight_eq_div_pow, Nat.testBit_shiftRight]
  by_cases h12 : 12 ≤ i
  · by_cases h16 : i < 16
    · have hm : Nat.testBit 0o170000 i = true := by
        interval_cases i <;> decide
      have e : 12 + (i - 12) = i := by omega
      have hlt : i - 12 < 4 := by omega
      simp [hm, h12, hlt, e]
    · have hle : 2 ^ 16 ≤ 2 ^ i := Nat.pow_le_pow_right (by decide) (Nat.le_of_not_lt h16)
      have hm : Nat.testBit 0o170000 i = false :=
        Nat.testBit_lt_two_pow (Nat.lt_of_lt_of_le (by decide) hle)
      have hlt : ¬ (i - 12 < 4) := by omega
      simp [hm, hlt]
  · have hm : Nat.testBit 0o170000 i = false := by
      have : i < 12 := by omega
      interval_cases i <;> decide
    simp [hm, h12]

/-- C4: `ret_ftype` is defined for every mode and depends on the four type
bits `mode & 0o170000` only, which form one of sixteen patterns; seven patterns
have a named category and each of the other nine gives "Unknown". -/
theorem ret_ftype_total (mode : Nat) :
    ret_ftype mode = ret_ftype (mode &&& 0o170000) ∧
    (∃ p, p < 16 ∧ mode &&& 0o170000 = p * 0o10000) ∧
    ret_ftype 0o040000 = "Directory" ∧ ret_ftype 0o060000 = "Block device" ∧
    ret_ftype 0o020000 = "Char. device" ∧ ret_ftype 0o100000 = "Regular file" ∧
    ret_ftype 0o010000 = "Pipe/FIFO" ∧ ret_ftype 0o140000 = "Socket" ∧
    ret_ftype 0o120000 = "Symbolic link" ∧
    (∀ p, p < 16 → p * 0o10000 ∉ [0o040000, 0o060000, 0o020000, 0o100000, 0o010000,
        0o140000, 0o120000] → ret_ftype (p * 0o10000) = "Unknown") ∧
    ((List.range 16).filter (fun p => ret_ftype (p * 0o10000) = "Unknown")).length = 9 ∧
    ((List.range 16).filter (fun p => ret_ftype (p * 0o10000) ≠ "Unknown")).length = 7 := by
  refine ⟨?_, ⟨mode / 2 ^ 12 % 2 ^ 4, Nat.mod_lt _ (by decide), type_bits_pattern mode⟩,
    by decide, by decide, by decide, by decide, by decide, by decide, by decide, by decide,
    by decide, by decide⟩
  have h : mode &&& S_IFMT &&& S_IFMT = mode &&& S_IFMT := by
    rw [Nat.and_assoc, Nat.and_self]
  show ret_ftype mode = ret_ftype (mode &&& S_IFMT)
  unfold ret_ftype
  simp only [h]

/-- The statement of C4 at the modes of a regular file and of an unmapped
pattern. -/
theorem ret_ftype_total_witness :
    ret_ftype 0o100644 = ret_ftype (0o100644 &&& 0o170000) ∧
    ret_ftype 0o100644 = "Regular file" ∧ ret_ftype 0o030000 = "Unknown" :=
  ⟨(ret_ftype_total 0o100644).1, by decide,
   (ret_ftype_total 0).2.2.2.2.2.2.2.2.2.1 3 (by decide) (by decide)⟩

/-! ## Properties of the entry counter -/

/-- The loop adds the number of counted entries, as long as the `int` holds it. -/
theorem get_entcount_loop_eq (ents : List Dirent) : ∀ count : Nat,
    count + (ents.filter counted).length < 2 ^ 31 →
    get_entcount_loop ents count = count + (ents.filter counted).length := by
  induction ents with
  | nil => intro count _; simp [get_entcount_loop]
  | cons e rest ih =>
    intro count hlen
    unfold get_entcount_loop
    by_cases hdot : e.d_name = "." ∨ e.d_name = ".."
    · have hc : counted e = false := by
        unfold counted
        rcases hdot with h | h <;> simp [h]
      rw [List.filter_cons_of_neg (by simp [hc])] at hlen ⊢
      rw [if_pos hdot, ih count hlen]
    · rw [if_neg hdot]
      by_cases hty : e.d_type = DT_REG ∨ e.d_type = DT_DIR ∨ e.d_type = DT_LNK
      · have hc : counted e = true := by
          unfold counted
          simp only [decide_eq_true_eq]
          exact ⟨fun h => hdot (Or.inl h), fun h => hdot (Or.inr h), hty⟩
        rw [List.filter_cons_of_pos hc] at hlen ⊢
        simp only [List.length_cons] at hlen ⊢
        have hmod : (count + 1) % 2 ^ 32 = count + 1 := Nat.mod_eq_of_lt (by omega)
        rw [if_pos hty, hmod, ih (count + 1) (by omega)]
        omega
      · have hc : counted e = false := by
          unfold counted
          simp only [decide_eq_false_iff_not]
          exact fun h => hty h.2.2
        rw [List.filter_cons_of_neg (by simp [hc])] at hlen ⊢
        rw [if_neg hty, ih count hlen]

/-- On a stream of `n` copies of a counted entry the loop adds `n` to the `int`
counter modulo `2 ^ 32`. -/
theorem get_entcount_loop_replicate (e : Dirent) (he : counted e = true) :
    ∀ (n count : Nat), count < 2 ^ 32 →
      get_entcount_loop (List.replicate n e) count = (count + n) % 2 ^ 32 := by
  have hdot : ¬ (e.d_name = "." ∨ e.d_name = "..") := by
    unfold counted at he
    simp only [decide_eq_true_eq] at he
    rintro (h | h)
    · exact he.1 h
    · exact he.2.1 h
  have hty : e.d_type = DT_REG ∨ e.d_type = DT_DIR ∨ e.d_type = DT_LNK := by
    unfold counted at he
    simp only [decide_eq_true_eq] at he
    exact he.2.2
  intro n
  induction n with
  | zero =>
    intro count hc
    simp only [List.replicate_zero, get_entcount_loop, Nat.add_zero]
    exact (Nat.mod_eq_of_lt hc).symm
  | succ n ih =>
    intro count _
    rw [List.replicate_succ]
    unfold get_entcount_loop
    rw [if_neg hdot, if_pos hty, ih _ (Nat.mod_lt _ (by decide)), Nat.mod_add_mod]
    congr 1
    omega

/-- An `int` below `2 ^ 31` is printed as the natural number it holds. -/
theorem toString_to_int (n : Nat) (h : n < 2 ^ 31) : toString (to_int n) = toString n := by
  have hm : n % 2 ^ 32 = n := Nat.mod_eq_of_lt (by omega)
  unfold to_int
  rw [hm, if_pos h]
  rfl

/-- The counted entries split by type. -/
theorem counted_split (ents : List Dirent) :
    (ents.filter counted).length =
      (ents.filter (fun e => decide (e.d_name ≠ "." ∧ e.d_name ≠ ".." ∧ e.d_type = DT_REG))).length
      + (ents.filter (fun e => decide (e.d_name ≠ "." ∧ e.d_name ≠ ".." ∧ e.d_type = DT_DIR))).length
      + (ents.filter (fun e => decide (e.d_name ≠ "." ∧ e.d_name ≠ ".." ∧ e.d_type = DT_LNK))).length := by
  induction ents with
  | nil => rfl
  | cons e rest ih =>
    simp only [List.filter_cons, counted]
    by_cases h1 : e.d_name = "."
    · simp [h1]
      simpa [counted] using ih
    · by_cases h2 : e.d_name = ".."
      · simp [h2]
        simpa [counted] using ih
      · by_cases hr : e.d_type = DT_REG
        · simp [h1, h2, hr, DT_REG, DT_DIR, DT_LNK]
          simp [counted, DT_REG, DT_DIR, DT_LNK] at ih
          omega
        · by_cases hd : e.d_type = DT_DIR
          · simp [h1, h2, hd, DT_REG, DT_DIR, DT_LNK]
            simp [counted, DT_REG, DT_DIR, DT_LNK] at ih
            omega
          · by_cases hl : e.d_type = DT_LNK
            · simp [h1, h2, hl, DT_REG, DT_DIR, DT_LNK]
              simp [counted, DT_REG, DT_DIR, DT_LNK] at ih
              omega
            · simp [h1, h2, hr, hd, hl]
              simpa [counted] using ih

/-- C5, as amended: for a directory stream in which fewer than `2 ^ 31` entries
are counted (the range of the `int` counter), `get_entcount` prints the number
of entries whose name is neither "." nor ".." and whose type is regular file,
directory or symbolic link; this number is the sum of the numbers of regular
files, of directories and of symbolic links among the entries other than "."
and "..". -/
theorem get_entcount_counts (ents : List Dirent)
    (hlen : (ents.filter (fun e =>
        decide (e.d_name ≠ "." ∧ e.d_name ≠ ".." ∧
          (e.d_type = DT_REG ∨ e.d_type = DT_DIR ∨ e.d_type = DT_LNK)))).length < 2 ^ 31) :
    get_entcount (.ok ents) =
      "# of entries:\t\t" ++ toString (ents.filter (fun e =>
        decide (e.d_name ≠ "." ∧ e.d_name ≠ ".." ∧
          (e.d_type = DT_REG ∨ e.d_type = DT_DIR ∨ e.d_type = DT_LNK)))).length ++ "\n" ∧
    (ents.filter (fun e =>
        decide (e.d_name ≠ "." ∧ e.d_name ≠ ".." ∧
          (e.d_type = DT_REG ∨ e.d_type = DT_DIR ∨ e.d_type = DT_LNK)))).length =
      (ents.filter (fun e => decide (e.d_name ≠ "." ∧ e.d_name ≠ ".." ∧ e.d_type = DT_REG))).length
      + (ents.filter (fun e => decide (e.d_name ≠ "." ∧ e.d_name ≠ ".." ∧ e.d_type = DT_DIR))).length
      + (ents.filter (fun e => decide (e.d_name ≠ "." ∧ e.d_name ≠ ".." ∧ e.d_type = DT_LNK))).length := by
  refine ⟨?_, counted_split ents⟩
  have hlen2 : (ents.filter counted).length < 2 ^ 31 := hlen
  have hloop := get_entcount_loop_eq ents 0 (by omega)
  simp only [get_entcount]
  rw [hloop, Nat.zero_add, toString_to_int _ hlen2, String.append_assoc]
  rfl

/-- C5, as stated, fails on a directory stream of `2 ^ 31` regular files: all
of them are to be counted, the `int` counter wraps, and `get_entcount` prints
"-2147483648". -/
theorem get_entcount_wraps :
    ((List.replicate (2 ^ 31) (Dirent.mk "f" DT_REG)).filter (fun e =>
        decide (e.d_name ≠ "." ∧ e.d_name ≠ ".." ∧
          (e.d_type = DT_REG ∨ e.d_type = DT_DIR ∨ e.d_type = DT_LNK)))).length = 2 ^ 31 ∧
    get_entcount (.ok (List.replicate (2 ^ 31) (Dirent.mk "f" DT_REG)))
      = "# of entries:\t\t-2147483648\n" ∧
    get_entcount (.ok (List.replicate (2 ^ 31) (Dirent.mk "f" DT_REG)))
      ≠ "# of entries:\t\t" ++ toString (2 ^ 31) ++ "\n" := by
  have he : counted (Dirent.mk "f" DT_REG) = true := by decide
  have hout : get_entcount (.ok (List.replicate (2 ^ 31) (Dirent.mk "f" DT_REG)))
      = "# of entries:\t\t-2147483648\n" := by
    simp only [get_entcount]
    rw [get_entcount_loop_replicate _ he _ 0 (by decide)]
    decide
  refine ⟨?_, hout, ?_⟩
  · have hf : (List.replicate (2 ^ 31) (Dirent.mk "f" DT_REG)).filter counted
        = List.replicate (2 ^ 31) (Dirent.mk "f" DT_REG) :=
      List.filter_replicate_of_pos he
    show ((List.replicate (2 ^ 31) (Dirent.mk "f" DT_REG)).filter counted).length = 2 ^ 31
    rw [hf, List.length_replicate]
  · rw [hout]
    decide

/-- The statement of C5 at the example directory: four entries are counted. -/
theorem get_entcount_counts_witness :
    dir_example.length < 2 ^ 31 ∧ get_entcount (.ok dir_example) = "# of entries:\t\t4\n" :=
  ⟨by decide, (get_entcount_counts dir_example (by decide)).1.trans (by decide)⟩

/-! ## Properties of the mount resolver -/

/-- What `fgets` leaves in the stream is no longer than the stream. -/
theorem fgets_take_length (k : Nat) : ∀ s : List Char,
    (fgets_take k s).2.length ≤ s.length := by
  induction k with
  | zero => intro s; simp [fgets_take]
  | succ k ih =>
    intro s
    cases s with
    | nil => simp [fgets_take]
    | cons c t =>
      unfold fgets_take
      split_ifs
      · simp
      · exact Nat.le_succ_of_le (ih t)

/-- With room for at least one character, `fgets` shortens a non-empty stream. -/
theorem fgets_take_lt (k : Nat) (c : Char) (t : List Char) :
    (fgets_take (k + 1) (c :: t)).2.length < (c :: t).length := by
  unfold fgets_take
  split_ifs
  · simp
  · exact Nat.lt_succ_of_le (fgets_take_length k t)

/-- A text without newline that fits is read whole, and `fgets` goes on. -/
theorem fgets_take_prefix : ∀ (P : List Char) (k : Nat) (Y : List Char),
    (∀ c ∈ P, c ≠ '\n') → P.length ≤ k →
    fgets_take k (P ++ Y) =
      (P ++ (fgets_take (k - P.length) Y).1, (fgets_take (k - P.length) Y).2) := by
  intro P
  induction P with
  | nil => intro k Y _ _; simp
  | cons c P ih =>
    intro k Y hP hk
    cases k with
    | zero => simp at hk
    | succ k =>
      have hc : c ≠ '\n' := hP c (List.mem_cons_self _ _)
      have ih2 := ih k Y (fun x hx => hP x (List.mem_cons_of_mem _ hx))
        (by simpa using hk)
      simp only [List.cons_append, fgets_take, if_neg hc, List.append_eq, ih2, List.length_cons,
        Nat.add_sub_add_right]

/-- A read inside a text that ends with a newline does not go past it. -/
theorem fgets_take_within : ∀ (p : List Char) (k : Nat) (X : List Char),
    fgets_take k (p ++ ['\n'] ++ X) =
      ((fgets_take k (p ++ ['\n'])).1, (fgets_take k (p ++ ['\n'])).2 ++ X) ∧
    ((fgets_take k (p ++ ['\n'])).2 = [] ∨
      ∃ q, q.length ≤ p.length ∧ (fgets_take k (p ++ ['\n'])).2 = q ++ ['\n']) := by
  intro p
  induction p with
  | nil =>
    intro k X
    cases k with
    | zero => exact ⟨by simp [fgets_take], Or.inr ⟨[], by simp, by simp [fgets_take]⟩⟩
    | succ k => exact ⟨by simp [fgets_take], Or.inl (by simp [fgets_take])⟩
  | cons c p ih =>
    intro k X
    cases k with
    | zero => exact ⟨by simp [fgets_take], Or.inr ⟨c :: p, by simp, by simp [fgets_take]⟩⟩
    | succ k =>
      by_cases hc : c = '\n'
      · exact ⟨by simp [fgets_take, hc], Or.inr ⟨p, by simp, by simp [fgets_take, hc]⟩⟩
      · obtain ⟨h1, h2⟩ := ih k X
        refine ⟨?_, ?_⟩
        · simp only [List.cons_append, fgets_take, if_neg hc, List.append_eq]
          rw [h1]
        · simp only [List.cons_append, fgets_take, if_neg hc, List.append_eq]
          rcases h2 with h2 | ⟨q, hq, h2⟩
          · exact Or.inl h2
          · exact Or.inr ⟨q, by simp; omega, h2⟩

/-- A token ends at the first delimiter after it. -/
theorem strtok_token (tok rest delim : List Char) (d : Char) (hne : tok ≠ [])
    (htok : ∀ x ∈ tok, x ∉ delim) (hd : d ∈ delim) :
    strtok (tok ++ d :: rest) delim = (some tok, rest) := by
  cases tok with
  | nil => exact absurd rfl hne
  | cons t ts =>
    have ht : t ∉ delim := htok t (List.mem_cons_self _ _)
    have hdrop : List.dropWhile (fun c => decide (c ∈ delim)) (t :: ts ++ d :: rest)
        = t :: (ts ++ d :: rest) := by
      simp [List.dropWhile_cons, ht]
    have hall : ∀ x ∈ t :: ts, (fun x => !decide (x ∈ delim)) x = true := by
      intro x hx
      simp [htok x hx]
    have htake : List.takeWhile (fun x => !decide (x ∈ delim)) (t :: ts ++ d :: rest)
        = t :: ts := by
      rw [List.takeWhile_append_of_pos hall]
      simp [List.takeWhile_cons, hd]
    have hdw : List.dropWhile (fun x => !decide (x ∈ delim)) (t :: ts ++ d :: rest)
        = d :: rest := by
      rw [List.dropWhile_append_of_pos hall]
      simp [List.dropWhile_cons, hd]
    unfold strtok
    rw [hdrop]
    simp only
    rw [← List.cons_append, htake, hdw]
    rfl

/-- A leading delimiter is skipped. -/
theorem strtok_skip (s delim : List Char) (d : Char) (hd : d ∈ delim) :
    strtok (d :: s) delim = strtok s delim := by
  unfold strtok
  rw [List.dropWhile_cons_of_pos (by simpa using hd)]

/-- A token returned by `strtok` does not start with a delimiter. -/
theorem strtok_head (s delim tok save : List Char) (h : strtok s delim = (some tok, save)) :
    ∃ c r, tok = c :: r ∧ c ∉ delim := by
  unfold strtok at h
  split at h
  · simp at h
  · next c p hdw =>
    have hc : ¬ (decide (c ∈ delim) = true) := by
      have := List.head_dropWhile_not (fun c => decide (c ∈ delim)) s
      intro hcd
      rw [hdw] at this
      simp at this
      exact this (by simpa using hcd)
    have hc2 : c ∉ delim := by simpa using hc
    simp only [Prod.mk.injEq, Option.some.injEq] at h
    refine ⟨c, List.takeWhile (fun x => !decide (x ∈ delim)) p, ?_, hc2⟩
    rw [← h.1, List.takeWhile_cons_of_pos (by simp [hc2])]

/-- `strstr` finds a text that occurs. -/
theorem strstr_of_infix (needle : List Char) : ∀ hay : List Char,
    needle <:+: hay → ∃ loc, strstr hay needle = some loc := by
  intro hay
  induction hay with
  | nil =>
    intro h
    have : needle = [] := List.infix_nil.mp h
    exact ⟨[], by simp [strstr, this]⟩
  | cons c hay ih =>
    intro h
    unfold strstr
    by_cases hp : needle.isPrefixOf (c :: hay) = true
    · exact ⟨c :: hay, by rw [if_pos hp]⟩
    · rw [if_neg hp]
      rcases List.infix_cons_iff.mp h with h1 | h2
      · exact absurd (List.isPrefixOf_iff_prefix.mpr h1) hp
      · exact ih h2

/-- One turn of the loop of `pr_home` on a stream that is not at its end. -/
theorem pr_home_scan_cons (dv : List Char) (f : Nat) (c : Char) (t : List Char) (st : Scan) :
    pr_home_scan dv (f + 1) (c :: t) st =
      match strtok (fgets_take 255 (c :: t)).1 ['-'] with
      | (none, _) => .nulltok
      | (some tok, save) =>
        match strstr tok dv with
        | none => pr_home_scan dv f (fgets_take 255 (c :: t)).2 .nomatch
        | some _ => .found (strtok (strtok save [' ', '-', ':']).2 [' ', '-', ':']).1 := by
  simp only [pr_home_scan, fgets]

/-- At the end of the stream the loop is left with the variables unchanged. -/
theorem pr_home_scan_nil (dv : List Char) (f : Nat) (st : Scan) :
    pr_home_scan dv (f + 1) [] st = st := by
  simp only [pr_home_scan, fgets]

/-- The loop budget does not matter once it exceeds the length of the stream. -/
theorem pr_home_scan_fuel (dv : List Char) : ∀ (f1 f2 : Nat) (s : List Char) (st : Scan),
    s.length < f1 → s.length < f2 → pr_home_scan dv f1 s st = pr_home_scan dv f2 s st := by
  intro f1
  induction f1 with
  | zero => intro f2 s st h1; exact absurd h1 (Nat.not_lt_zero _)
  | succ f1 ih =>
    intro f2 s st h1 h2
    cases f2 with
    | zero => exact absurd h2 (Nat.not_lt_zero _)
    | succ f2 =>
      cases s with
      | nil => rw [pr_home_scan_nil, pr_home_scan_nil]
      | cons c t =>
        have hlt : (fgets_take 255 (c :: t)).2.length < (c :: t).length := fgets_take_lt 254 c t
        rw [pr_home_scan_cons, pr_home_scan_cons]
        rw [ih f2 (fgets_take 255 (c :: t)).2 .nomatch (by omega) (by omega)]

/-- The loop of `pr_home` ends within its budget. -/
theorem pr_home_scan_finishes (dv : List Char) : ∀ (f : Nat) (s : List Char) (st : Scan),
    s.length < f → st ≠ .more → pr_home_scan dv f s st ≠ .more := by
  intro f
  induction f with
  | zero => intro s st h; exact absurd h (Nat.not_lt_zero _)
  | succ f ih =>
    intro s st h hst
    cases s with
    | nil => rw [pr_home_scan_nil]; exact hst
    | cons c t =>
      have hlt : (fgets_take 255 (c :: t)).2.length < (c :: t).length := fgets_take_lt 254 c t
      rw [pr_home_scan_cons]
      split
      · simp
      · split
        · exact ih _ _ (by omega) (by simp)
        · simp

/-- `pr_home` never runs out of loop budget. -/
theorem pr_home_finishes (mountinfo : Option String) (dev : Nat) (out : String) :
    pr_home mountinfo dev ≠ .unfinished out := by
  unfold pr_home
  cases mountinfo with
  | none => simp
  | some text =>
    have h := pr_home_scan_finishes (dev_ver dev).data (text.length + 1) text.data .unset
      (Nat.lt_succ_self _) (by simp)
    simp only
    split <;> first | exact absurd (by assumption) h | simp

/-- One turn of the loop of `pr_home` on a non-empty stream. -/
theorem pr_home_scan_step (dv : List Char) (f : Nat) (s : List Char) (st : Scan) (hs : s ≠ []) :
    pr_home_scan dv (f + 1) s st =
      match strtok (fgets_take 255 s).1 ['-'] with
      | (none, _) => .nulltok
      | (some tok, save) =>
        match strstr tok dv with
        | none => pr_home_scan dv f (fgets_take 255 s).2 .nomatch
        | some _ => .found (strtok (strtok save [' ', '-', ':']).2 [' ', '-', ':']).1 := by
  cases s with
  | nil => exact absurd rfl hs
  | cons c t => exact pr_home_scan_cons dv f c t st

/-- A line of the standard shape that holds the device string before its first
hyphen ends the loop with the token after the file-system type. -/
theorem pr_home_scan_match (dv A F S tail : List Char) (st : Scan) (f : Nat)
    (hdev : dv <:+: A) (hAne : A ≠ []) (hA : ∀ c ∈ A, c ≠ '-' ∧ c ≠ '\n')
    (hF : F ≠ [] ∧ ∀ c ∈ F, c ∉ [' ', '-', ':', '\n'])
    (hS : S ≠ [] ∧ ∀ c ∈ S, c ∉ [' ', '-', ':', '\n'])
    (hlen : (A ++ '-' :: ' ' :: (F ++ ' ' :: (S ++ [' ']))).length ≤ 255) :
    pr_home_scan dv (f + 1) (A ++ '-' :: ' ' :: (F ++ ' ' :: (S ++ ' ' :: tail))) st
      = .found (some S) := by
  have hsplit : A ++ '-' :: ' ' :: (F ++ ' ' :: (S ++ ' ' :: tail))
      = (A ++ '-' :: ' ' :: (F ++ ' ' :: (S ++ [' ']))) ++ tail := by simp
  have hnl : ∀ c ∈ A ++ '-' :: ' ' :: (F ++ ' ' :: (S ++ [' '])), c ≠ '\n' := by
    intro c hc
    simp only [List.mem_append, List.mem_cons, List.mem_singleton, List.not_mem_nil,
      or_false] at hc
    rcases hc with h | h | h | h | h | h | h
    · exact (hA c h).2
    · rw [h]; decide
    · rw [h]; decide
    · intro hcn; exact hF.2 c h (by simp [hcn])
    · rw [h]; decide
    · intro hcn; exact hS.2 c h (by simp [hcn])
    · rw [h]; decide
  have hne : A ++ '-' :: ' ' :: (F ++ ' ' :: (S ++ ' ' :: tail)) ≠ [] := by
    cases A with
    | nil => exact absurd rfl hAne
    | cons a A2 => simp
  have hbuf := fgets_take_prefix _ 255 tail hnl hlen
  obtain ⟨loc, hloc⟩ := strstr_of_infix dv A hdev
  rw [pr_home_scan_step dv f _ st hne, hsplit, hbuf]
  simp only
  generalize (fgets_take (255 - (A ++ '-' :: ' ' :: (F ++ ' ' :: (S ++ [' ']))).length) tail).1 = t1
  have hrw : A ++ '-' :: ' ' :: (F ++ ' ' :: (S ++ [' '])) ++ t1
      = A ++ '-' :: (' ' :: (F ++ ' ' :: (S ++ ' ' :: t1))) := by simp
  have h1 : strtok (A ++ '-' :: (' ' :: (F ++ ' ' :: (S ++ ' ' :: t1)))) ['-']
      = (some A, ' ' :: (F ++ ' ' :: (S ++ ' ' :: t1))) :=
    strtok_token A _ ['-'] '-' hAne (fun x hx => by simpa using (hA x hx).1) (by simp)
  have h2 : strtok (' ' :: (F ++ ' ' :: (S ++ ' ' :: t1))) [' ', '-', ':']
      = (some F, S ++ ' ' :: t1) := by
    rw [strtok_skip _ _ ' ' (by simp)]
    exact strtok_token F _ _ ' ' hF.1
      (fun x hx hm => hF.2 x hx (by
        simp only [List.mem_cons, List.mem_singleton, List.not_mem_nil, or_false] at hm ⊢
        tauto)) (by simp)
  have h3 : strtok (S ++ ' ' :: t1) [' ', '-', ':'] = (some S, t1) :=
    strtok_token S _ _ ' ' hS.1
      (fun x hx hm => hS.2 x hx (by
        simp only [List.mem_cons, List.mem_singleton, List.not_mem_nil, or_false] at hm ⊢
        tauto)) (by simp)
  rw [hrw, h1]
  simp only [hloc, h2, h3]

/-- Lines read without a match, the last one ending with a newline, are passed
over: the loop goes on after them with `loc` null. -/
theorem pr_home_scan_skip (dv : List Char) : ∀ (n : Nat) (p : List Char), p.length ≤ n →
    ∀ (st : Scan) (X : List Char) (f : Nat), (p ++ ['\n'] ++ X).length < f →
    pr_home_scan dv ((p ++ ['\n']).length + 1) (p ++ ['\n']) st = .nomatch →
    pr_home_scan dv f (p ++ ['\n'] ++ X) st = pr_home_scan dv (X.length + 1) X .nomatch := by
  intro n
  induction n using Nat.strong_induction_on with
  | _ n ih =>
    intro p hp st X f hf hpre
    cases f with
    | zero => exact absurd hf (Nat.not_lt_zero _)
    | succ f =>
      obtain ⟨hw1, hw2⟩ := fgets_take_within p 255 X
      have hne1 : p ++ ['\n'] ≠ [] := by simp
      have hne2 : p ++ ['\n'] ++ X ≠ [] := by simp
      have hlt : (fgets_take 255 (p ++ ['\n'])).2.length < (p ++ ['\n']).length := by
        cases hpc : p ++ ['\n'] with
        | nil => exact absurd hpc hne1
        | cons c t => exact fgets_take_lt 254 c t
      rw [pr_home_scan_step dv _ _ st hne1] at hpre
      rw [pr_home_scan_step dv f _ st hne2, hw1]
      simp only
      split at hpre
      · exact absurd hpre (by simp)
      · next tok save hst =>
        split at hpre
        · next hnone =>
          simp only [List.length_append, List.length_cons, List.length_nil] at hf hlt
          rcases hw2 with h0 | ⟨q, hq, hq2⟩
          · rw [h0, List.nil_append]
            exact pr_home_scan_fuel dv _ _ _ _ (by omega) (by omega)
          · rw [hq2] at hpre hlt ⊢
            simp only [List.length_append, List.length_cons, List.length_nil] at hlt
            have hpre2 : pr_home_scan dv ((q ++ ['\n']).length + 1) (q ++ ['\n']) .nomatch
                = .nomatch :=
              (pr_home_scan_fuel dv _ _ _ _ (Nat.lt_succ_self _)
                (by simp only [List.length_append, List.length_cons, List.length_nil]
                    omega)).trans hpre
            by_cases hqn : q.length < n
            · exact ih q.length hqn q (Nat.le_refl _) .nomatch X f
                (by simp only [List.length_append, List.length_cons, List.length_nil]; omega)
                hpre2
            · exfalso; omega
        · exact absurd hpre (by simp)

/-- A token found by the loop of `pr_home` does not start with a delimiter. -/
theorem pr_home_scan_found (dv : List Char) : ∀ (f : Nat) (s : List Char) (st : Scan)
    (tok : List Char), (∀ t, st ≠ .found t) → pr_home_scan dv f s st = .found (some tok) →
    ∃ c r, tok = c :: r ∧ c ∉ [' ', '-', ':'] := by
  intro f
  induction f with
  | zero => intro s st tok _ h; simp [pr_home_scan] at h
  | succ f ih =>
    intro s st tok hst h
    cases s with
    | nil =>
      rw [pr_home_scan_nil] at h
      exact absurd h (hst _)
    | cons c t =>
      rw [pr_home_scan_cons] at h
      split at h
      · simp at h
      · split at h
        · exact ih _ _ tok (by simp) h
        · next tok0 save _ _ _ _ =>
          simp only [Scan.found.injEq] at h
          exact strtok_head (strtok save [' ', '-', ':']).2 [' ', '-', ':'] tok
            (strtok (strtok save [' ', '-', ':']).2 [' ', '-', ':']).2 (by rw [← h])

/-- A blank field is printed only when the loop ends without a match. -/
theorem pr_home_blank_scan (text : String) (dev : Nat)
    (h : pr_home (some text) dev
      = .returned ("Home:\t\t\t" ++ toString (to_long dev) ++ "\t\t" ++ " " ++ "\n")) :
    pr_home_scan (dev_ver dev).data (text.length + 1) text.data .unset = .nomatch := by
  unfold pr_home at h
  simp only at h
  split at h
  · simp at h
  · assumption
  · next tok hscan =>
    obtain ⟨c, r, hc, hcd⟩ := pr_home_scan_found _ _ _ _ tok (by simp) hscan
    simp only [Outcome.returned.injEq] at h
    have e2 : (" " : String).data = [' '] := rfl
    have hd := congrArg String.data h
    simp only [String.data_append, List.append_assoc, e2] at hd
    have h2 := List.append_cancel_left (List.append_cancel_left (List.append_cancel_left hd))
    rw [hc] at h2
    have h3 : c = ' ' := by
      have := congrArg List.head? h2
      simpa using this
    exact absurd (by simp [h3]) hcd
  · simp at h
  · simp at h
  · simp at h

/-- C6, as amended: when every line before the first matching line is read
without a match, and that line is `A ++ "- " ++ fstype ++ " " ++ source ++ " " ++ ...`
with the device string inside `A`, no hyphen in `A`, no space, hyphen or colon
in `fstype` and `source`, and its text up to the space after `source` within
the 255 characters one `fgets` reads, then `pr_home` prints `source`: the second
token after the first hyphen of the line, the mount source. -/
theorem pr_home_source (dev : Nat) (pre A fstype source rest : String)
    (hpre : pre = "" ∨ ((∃ p : String, pre = p ++ "\n") ∧
      pr_home (some pre) dev
        = .returned ("Home:\t\t\t" ++ toString (to_long dev) ++ "\t\t" ++ " " ++ "\n")))
    (hdev : (dev_ver dev).data <:+: A.data)
    (hA : ∀ c ∈ A.data, c ≠ '-' ∧ c ≠ '\n')
    (hF : fstype ≠ "" ∧ ∀ c ∈ fstype.data, c ∉ [' ', '-', ':', '\n'])
    (hS : source ≠ "" ∧ ∀ c ∈ source.data, c ∉ [' ', '-', ':', '\n'])
    (hlen : (A ++ "- " ++ fstype ++ " " ++ source ++ " ").length ≤ 255) :
    pr_home (some (pre ++ A ++ "- " ++ fstype ++ " " ++ source ++ " " ++ rest)) dev
      = .returned ("Home:\t\t\t" ++ toString (to_long dev) ++ "\t\t" ++ source ++ "\n") := by
  have e1 : ("- " : String).data = ['-', ' '] := rfl
  have e2 : (" " : String).data = [' '] := rfl
  have e3 : ("\n" : String).data = ['\n'] := rfl
  have hdvne : (dev_ver dev).data ≠ [] := by
    intro h
    have hd : (dev_ver dev).data
        = (toString (to_int dev >>> 8)).data ++ ([':'] ++ (toString ((dev % 2 ^ 32) &&& 0xff)).data) := by
      simp [dev_ver, String.data_append]
    rw [hd] at h
    simp at h
  have hAne : A.data ≠ [] := by
    intro h
    rw [h] at hdev
    exact hdvne (List.infix_nil.mp hdev)
  have hFne : fstype.data ≠ [] := fun h => hF.1 (String.ext h)
  have hSne : source.data ≠ [] := fun h => hS.1 (String.ext h)
  have hlen2 : (A.data ++ '-' :: ' ' :: (fstype.data ++ ' ' :: (source.data ++ [' ']))).length
      ≤ 255 := by
    have : (A ++ "- " ++ fstype ++ " " ++ source ++ " ").length
        = (A.data ++ '-' :: ' ' :: (fstype.data ++ ' ' :: (source.data ++ [' ']))).length := by
      show (A ++ "- " ++ fstype ++ " " ++ source ++ " ").data.length = _
      simp [String.data_append, e1, e2]
    omega
  have hdata : (pre ++ A ++ "- " ++ fstype ++ " " ++ source ++ " " ++ rest).data
      = pre.data ++ (A.data ++ '-' :: ' ' :: (fstype.data ++ ' ' :: (source.data ++ ' ' :: rest.data))) := by
    simp [String.data_append, e1, e2]
  have hscan : pr_home_scan (dev_ver dev).data
      ((pre ++ A ++ "- " ++ fstype ++ " " ++ source ++ " " ++ rest).length + 1)
      (pre ++ A ++ "- " ++ fstype ++ " " ++ source ++ " " ++ rest).data .unset
      = .found (some source.data) := by
    rw [hdata]
    rcases hpre with h0 | ⟨⟨p, hp⟩, hblank⟩
    · rw [h0]
      exact pr_home_scan_match _ _ _ _ _ _ _ hdev hAne hA ⟨hFne, hF.2⟩ ⟨hSne, hS.2⟩ hlen2
    · have hnm := pr_home_blank_scan pre dev hblank
      have hpd : pre.data = p.data ++ ['\n'] := by
        rw [hp, String.data_append, e3]
      have hlp : pre.length = (p.data ++ ['\n']).length := by
        show pre.data.length = _
        rw [hpd]
      rw [hlp, hpd] at hnm
      rw [hpd]
      rw [pr_home_scan_skip _ p.data.length p.data (Nat.le_refl _) .unset _ _ ?_ hnm]
      · exact pr_home_scan_match _ _ _ _ _ _ _ hdev hAne hA ⟨hFne, hF.2⟩ ⟨hSne, hS.2⟩ hlen2
      · show _ < (pre ++ A ++ "- " ++ fstype ++ " " ++ source ++ " " ++ rest).data.length + 1
        rw [hdata, hpd]
        exact Nat.lt_succ_self _
  unfold pr_home
  simp only
  rw [hscan]

/-- The statement of the amended C6 at a table of two lines whose second line
is the example line of `proc(5)`, for device 98:0. -/
theorem pr_home_source_witness :
    pr_home (some ("22 28 0:21 / /sys rw,nosuid - sysfs sysfs rw\n"
        ++ "36 35 98:0 /mnt1 /mnt2 rw,noatime master:1 " ++ "- " ++ "ext3" ++ " " ++ "/dev/root"
        ++ " " ++ "rw,errors=continue\n")) 25088
      = .returned ("Home:\t\t\t" ++ toString (to_long 25088) ++ "\t\t" ++ "/dev/root" ++ "\n") :=
  pr_home_source 25088 "22 28 0:21 / /sys rw,nosuid - sysfs sysfs rw\n"
    "36 35 98:0 /mnt1 /mnt2 rw,noatime master:1 " "ext3" "/dev/root" "rw,errors=continue\n"
    (Or.inr ⟨⟨"22 28 0:21 / /sys rw,nosuid - sysfs sysfs rw", by decide⟩, by decide⟩)
    (by decide) (by decide) (by decide) (by decide) (by decide)

/-- C6, as stated, fails on the example line of `proc(5)` for device 98:0: the
second token after the device string is the mount point "/mnt2", and `pr_home`
prints the mount source "/dev/root" instead. -/
theorem pr_home_not_mountpoint :
    mountinfo_example
      = "36 35 " ++ dev_ver 25088
        ++ " /mnt1 /mnt2 rw,noatime master:1 - ext3 /dev/root rw,errors=continue\n" ∧
    (strtok (strtok
      " /mnt1 /mnt2 rw,noatime master:1 - ext3 /dev/root rw,errors=continue\n".data
      [' ', '-', ':']).2 [' ', '-', ':']).1 = some "/mnt2".data ∧
    pr_home (some mountinfo_example) 25088 ≠ .returned "Home:\t\t\t25088\t\t/mnt2\n" ∧
    pr_home (some mountinfo_example) 25088 = .returned "Home:\t\t\t25088\t\t/dev/root\n" := by
  decide

/-- C7 at its failing input: on a mount table that opens and is empty the loop
body never runs and `pr_home` reads the pointer `loc` that was never assigned;
on a table holding a lone hyphen `strstr` is given the null pointer of `strtok`.
A table that cannot be opened gives the blank field. -/
theorem pr_home_empty_table (dev : Nat) :
    pr_home (some "") dev = .undefined ("Home:\t\t\t" ++ toString (to_long dev) ++ "\t\t") ∧
    pr_home (some "-") dev = .undefined ("Home:\t\t\t" ++ toString (to_long dev) ++ "\t\t") ∧
    pr_home none dev = .returned ("Home:\t\t\t" ++ toString (to_long dev) ++ "\t\t" ++ "\n") := by
  refine ⟨?_, ?_, rfl⟩
  · unfold pr_home
    simp only
    rfl
  · unfold pr_home
    simp only
    rfl

/-! ## Properties of the path resolver -/

/-- A `getcwd` that fails for lack of room was given a buffer of non-zero size. -/
theorem getcwd_erange (sys : Sys) (n size : Nat) (h : getcwd sys n size = .error ERANGE) :
    size ≠ 0 := by
  intro h0
  rw [h0] at h
  simp [getcwd, EINVAL, ERANGE] at h

/-- The loop of `pr_path` ends within its budget: after at most 64 doublings
the `size_t` size is zero and `getcwd` fails with `EINVAL`. -/
theorem pr_path_grow_finishes (sys : Sys) : ∀ (fuel n psize : Nat), 0 < fuel →
    psize * 2 ^ fuel % 2 ^ 64 = 0 → pr_path_grow sys fuel n psize ≠ .more := by
  intro fuel
  induction fuel with
  | zero => intro n psize h; exact absurd h (Nat.lt_irrefl _)
  | succ fuel ih =>
    intro n psize _ hinv
    unfold pr_path_grow
    simp only
    split
    · simp
    · split
      · next e hg =>
        split_ifs with he
        · rw [he] at hg
          have hnz := getcwd_erange sys _ _ hg
          have hinv2 : psize * 2 % 2 ^ 64 * 2 ^ fuel % 2 ^ 64 = 0 := by
            rw [Nat.mod_mul_mod, Nat.mul_assoc, ← Nat.pow_succ']
            exact hinv
          have hpos : 0 < fuel := by
            rcases Nat.eq_zero_or_pos fuel with h0 | h0
            · rw [h0, Nat.pow_zero, Nat.mul_one, Nat.mod_mod] at hinv2
              exact absurd hinv2 hnz
            · exact h0
          exact ih _ _ hpos hinv2
        · simp
      · simp

/-- `pr_path` never runs out of loop budget. -/
theorem pr_path_finishes (sys : Sys) (fname out : String) :
    pr_path sys fname ≠ .unfinished out := by
  have hcat : ∀ o psize path, pr_path_cat o psize path fname ≠ .unfinished out := by
    intro o psize path
    unfold pr_path_cat
    split
    · simp
    · split_ifs <;> simp
  have hcwd : pr_path_cwd sys fname ≠ .unfinished out := by
    unfold pr_path_cwd
    simp only
    split
    · simp
    · split
      · exact hcat _ _ _
      · split_ifs
        · exact hcat _ _ _
        · have hfin := pr_path_grow_finishes sys 64 0 ((4096 + (fname.length + 1)) % 2 ^ 64)
            (by decide) (Nat.mul_mod_left _ _)
          split
          · simp
          · exact hcat _ _ _
          · exact hcat _ _ _
          · next hm => exact absurd hm hfin
        · simp
  unfold pr_path
  split
  · simp
  · split_ifs
    · split
      · split_ifs <;> simp
      · simp
    · exact hcwd
  · exact hcwd

/-- Whatever `pr_path` prints before it returns starts with its label. -/
theorem pr_path_label (sys : Sys) (fname path : String)
    (h : pr_path sys fname = .returned path) : "Path: ".data <+: path.data := by
  have hcat : ∀ o psize p, "Path: ".data <+: o.data →
      pr_path_cat o psize p fname = .returned path → "Path: ".data <+: path.data := by
    intro o psize p ho hc
    unfold pr_path_cat at hc
    split at hc
    · simp at hc
    · split_ifs at hc
      · simp only [Outcome.returned.injEq] at hc
        rw [← hc]
        simp only [String.data_append, List.append_assoc]
        exact ho.trans (List.prefix_append _ _)
  have hcwd : pr_path_cwd sys fname = .returned path → "Path: ".data <+: path.data := by
    intro hc
    unfold pr_path_cwd at hc
    simp only at hc
    split at hc
    · simp at hc
    · split at hc
      · exact hcat _ _ _ (List.prefix_refl _) hc
      · split_ifs at hc
        · exact hcat _ _ _ (by decide) hc
        · split at hc
          · simp at hc
          · exact hcat _ _ _ (List.prefix_refl _) hc
          · exact hcat _ _ _ (List.prefix_refl _) hc
          · simp at hc
  unfold pr_path at h
  split at h
  · simp only [Outcome.returned.injEq] at h
    rw [← h]
    simp only [String.data_append, List.append_assoc]
    exact List.prefix_append _ _
  · split_ifs at h
    · split at h
      · split_ifs at h
        · simp only [Outcome.returned.injEq] at h
          rw [← h]
          decide
        · simp only [Outcome.returned.injEq] at h
          rw [← h]
      · simp only [Outcome.returned.injEq] at h
        rw [← h]
        simp only [String.data_append, List.append_assoc]
        exact List.prefix_append _ _
    · exact hcwd h
  · exact hcwd h

/-- Whatever `pr_home` prints before it returns starts with its label. -/
theorem pr_home_label (mountinfo : Option String) (dev : Nat) (home : String)
    (h : pr_home mountinfo dev = .returned home) : "Home:\t\t\t".data <+: home.data := by
  unfold pr_home at h
  simp only at h
  split at h
  · simp only [Outcome.returned.injEq] at h
    rw [← h]
    simp only [String.data_append, List.append_assoc]
    exact List.prefix_append _ _
  · split at h
    all_goals first
      | (simp only [Outcome.returned.injEq] at h
         rw [← h]
         simp only [String.data_append, List.append_assoc]
         exact List.prefix_append _ _)
      | simp at h

/-! ## Properties of the report -/

/-- The classifier says "Directory" exactly when `S_ISDIR` holds. -/
theorem ret_ftype_dir (mode : Nat) : ret_ftype mode = "Directory" ↔ S_ISDIR mode = true := by
  unfold ret_ftype S_ISDIR
  simp only [decide_eq_true_eq]
  constructor
  · intro h
    by_contra hne
    rw [if_neg hne] at h
    split_ifs at h <;> exact absurd h (by decide)
  · intro h
    rw [if_pos h]

/-- The classifier says "Block device" or "Char. device" exactly when `S_ISBLK`
or `S_ISCHR` holds. -/
theorem ret_ftype_dev (mode : Nat) :
    (ret_ftype mode = "Block device" ∨ ret_ftype mode = "Char. device")
      ↔ (S_ISBLK mode || S_ISCHR mode) = true := by
  unfold ret_ftype S_ISBLK S_ISCHR
  simp only [Bool.or_eq_true, decide_eq_true_eq]
  constructor
  · intro h
    by_contra hne
    have hb : ¬ (mode &&& S_IFMT = S_IFBLK) := fun hb => hne (Or.inl hb)
    have hc : ¬ (mode &&& S_IFMT = S_IFCHR) := fun hc => hne (Or.inr hc)
    simp only [if_neg hb, if_neg hc] at h
    split_ifs at h <;> rcases h with h | h <;> exact absurd h (by decide)
  · intro h
    rcases h with h | h
    · have hd : ¬ (mode &&& S_IFMT = S_IFDIR) := by rw [h]; decide
      rw [if_neg hd, if_pos h]
      exact Or.inl rfl
    · have hd : ¬ (mode &&& S_IFMT = S_IFDIR) := by rw [h]; decide
      have hb : ¬ (mode &&& S_IFMT = S_IFBLK) := by rw [h]; decide
      rw [if_neg hd, if_neg hb, if_pos h]
      exact Or.inr rfl

/-- The entry-count field starts with its label. -/
theorem get_entcount_label (dir : Except Nat (List Dirent)) :
    "# of entries:\t\t".data <+: (get_entcount dir).data := by
  unfold get_entcount
  simp only [String.data_append]
  exact List.prefix_append _ _

/-- The result of two calls in sequence is a return exactly when both return. -/
theorem seq_returned (a b : Outcome) (out : String) :
    a.seq b = .returned out ↔
      ∃ o1 o2, a = .returned o1 ∧ b = .returned o2 ∧ out = o1 ++ o2 := by
  cases a <;> cases b <;> simp [Outcome.seq, eq_comm]

/-- Two calls in sequence run out of loop budget only when one of them does. -/
theorem seq_unfinished (a b : Outcome) (out : String) (h : a.seq b = .unfinished out) :
    (∃ o, a = .unfinished o) ∨ (∃ o, b = .unfinished o) := by
  cases a <;> cases b <;> simp [Outcome.seq] at h ⊢

/-- The report never runs out of loop budget: every run of `print_inode_info`
returns, exits or runs into undefined behaviour. -/
theorem print_inode_info_finishes (sys : Sys) (fname : String) (st : Stat) (out : String) :
    print_inode_info sys fname st ≠ .unfinished out := by
  intro h
  unfold print_inode_info at h
  rcases seq_unfinished _ _ _ h with ⟨o, h1⟩ | ⟨o, h1⟩
  · exact pr_path_finishes sys fname o h1
  · rcases seq_unfinished _ _ _ h1 with ⟨o, h2⟩ | ⟨o, h2⟩
    · simp at h2
    · rcases seq_unfinished _ _ _ h2 with ⟨o, h3⟩ | ⟨o, h3⟩
      · exact pr_home_finishes _ _ o h3
      · rcases seq_unfinished _ _ _ h3 with ⟨o, h4⟩ | ⟨o, h4⟩
        · unfold pr_owners at h4
          rcases seq_unfinished _ _ _ h4 with ⟨o2, h5⟩ | ⟨o2, h5⟩
          · simp at h5
          · unfold pr_gid at h5
            split at h5 <;> simp at h5
        · simp at h4

/-- The group field is printed exactly when `getgrgid` finds a record. -/
theorem pr_gid_returned (sys : Sys) (gid : Nat) (g : String) :
    pr_gid sys gid = .returned g ↔
      ∃ name, sys.getgrgid gid = some name ∧
        g = "GID:\t\t\t" ++ toString gid ++ "\t\t" ++ name ++ "\n" := by
  unfold pr_gid
  cases sys.getgrgid gid with
  | none => simp
  | some name => simp [eq_comm]

/-- C8: a report that `print_inode_info` completes (which it does exactly when
the path field, the mount field and the group field are printed) consists of
the fields Path, Inode, Home, UID, GID, Type, Dev. ID, # of entries,
Permissions, Size in this order; the Dev. ID line is there exactly for block
and character devices and the # of entries line exactly for directories, and
an absent field leaves no text at all. -/
theorem print_inode_info_fields (sys : Sys) (fname : String) (st : Stat) :
    ((∃ out, print_inode_info sys fname st = .returned out) ↔
      (∃ path, pr_path sys fname = .returned path) ∧
      (∃ home, pr_home sys.mountinfo st.st_dev = .returned home) ∧
      (∃ name, sys.getgrgid st.st_gid = some name)) ∧
    ∀ out, print_inode_info sys fname st = .returned out →
      ∃ path home name,
        pr_path sys fname = .returned path ∧ "Path: ".data <+: path.data ∧
        pr_home sys.mountinfo st.st_dev = .returned home ∧
        "Home:\t\t\t".data <+: home.data ∧
        sys.getgrgid st.st_gid = some name ∧
        "# of entries:\t\t".data <+: (get_entcount (sys.opendir fname)).data ∧
        out = path
          ++ ("Inode:\t\t\t" ++ toString (to_long st.st_ino) ++ "\n")
          ++ home
          ++ ("UID:\t\t\t" ++ toString st.st_uid ++ "\t\t"
              ++ (match sys.getpwuid st.st_uid with
                  | some user => user
                  | none => " ") ++ "\n")
          ++ ("GID:\t\t\t" ++ toString st.st_gid ++ "\t\t" ++ name ++ "\n")
          ++ ("Type:\t\t\t" ++ ret_ftype st.st_mode ++ "\n")
          ++ (if ret_ftype st.st_mode = "Block device" ∨ ret_ftype st.st_mode = "Char. device"
              then "Dev. ID:\t\t" ++ toString (to_long st.st_rdev) ++ "\n" else "")
          ++ (if ret_ftype st.st_mode = "Directory"
              then get_entcount (sys.opendir fname) else "")
          ++ ("Permissions:\t\t" ++ perm_string st.st_mode ++ "\n")
          ++ ("Size:\t\t\t" ++
              (if 1024 ≤ st.st_size ∧ st.st_size < 1048576 then
                printf_2f (to_float st.st_size) 1024 ++ "K\n"
              else if 1048576 ≤ st.st_size ∧ st.st_size < 1073741824 then
                printf_2f (to_float st.st_size) 1048576 ++ "M\n"
              else if 1073741824 < st.st_size then
                printf_2f (to_float st.st_size) 1073741824 ++ "G\n"
              else toString st.st_size ++ "\n")) := by
  have hfields : ∀ out, print_inode_info sys fname st = .returned out →
      ∃ path home name,
        pr_path sys fname = .returned path ∧
        pr_home sys.mountinfo st.st_dev = .returned home ∧
        sys.getgrgid st.st_gid = some name ∧
        out = path ++ (pr_inode st.st_ino ++ (home ++ (pr_uid sys st.st_uid
          ++ ("GID:\t\t\t" ++ toString st.st_gid ++ "\t\t" ++ name ++ "\n")
          ++ (pr_type st
              ++ (if S_ISDIR st.st_mode then get_entcount (sys.opendir fname) else "")
              ++ pr_permissions st.st_mode ++ pr_size st.st_size)))) := by
    intro out h
    unfold print_inode_info at h
    obtain ⟨path, o2, hp, h2, rfl⟩ := (seq_returned _ _ _).mp h
    obtain ⟨ino, o3, hi, h3, rfl⟩ := (seq_returned _ _ _).mp h2
    obtain ⟨home, o4, hh, h4, rfl⟩ := (seq_returned _ _ _).mp h3
    obtain ⟨own, o5, ho, h5, rfl⟩ := (seq_returned _ _ _).mp h4
    unfold pr_owners at ho
    obtain ⟨u, g, hu, hg, rfl⟩ := (seq_returned _ _ _).mp ho
    obtain ⟨name, hname, rfl⟩ := (pr_gid_returned _ _ _).mp hg
    simp only [Outcome.returned.injEq] at hi hu h5
    subst hi hu h5
    exact ⟨path, home, name, hp, hh, hname, rfl⟩
  refine ⟨⟨?_, ?_⟩, ?_⟩
  · rintro ⟨out, h⟩
    obtain ⟨path, home, name, hp, hh, hname, _⟩ := hfields out h
    exact ⟨⟨path, hp⟩, ⟨home, hh⟩, ⟨name, hname⟩⟩
  · rintro ⟨⟨path, hp⟩, ⟨home, hh⟩, ⟨name, hname⟩⟩
    have hg : pr_gid sys st.st_gid
        = .returned ("GID:\t\t\t" ++ toString st.st_gid ++ "\t\t" ++ name ++ "\n") :=
      (pr_gid_returned _ _ _).mpr ⟨name, hname, rfl⟩
    unfold print_inode_info pr_owners
    rw [hp, hh, hg]
    exact ⟨_, rfl⟩
  · intro out h
    obtain ⟨path, home, name, hp, hh, hname, hout⟩ := hfields out h
    refine ⟨path, home, name, hp, pr_path_label sys fname path hp, hh,
      pr_home_label _ _ home hh, hname, get_entcount_label _, ?_⟩
    rw [hout]
    have hdir : (S_ISDIR st.st_mode = true) = (ret_ftype st.st_mode = "Directory") :=
      propext (ret_ftype_dir st.st_mode).symm
    have hdev : ((S_ISBLK st.st_mode || S_ISCHR st.st_mode) = true)
        = (ret_ftype st.st_mode = "Block device" ∨ ret_ftype st.st_mode = "Char. device") :=
      propext (ret_ftype_dev st.st_mode).symm
    apply String.ext
    simp only [pr_inode, pr_uid, pr_type, pr_permissions, pr_size, hdir, hdev,
      String.data_append, List.append_assoc]

set_option maxRecDepth 20000 in
/-- The statement of C8 at the regular file of 2048 bytes and at a directory of
four counted entries. -/
theorem print_inode_info_fields_witness :
    (∃ out, print_inode_info sys_example "/tmp/f" stat_file = .returned out) ∧
    print_inode_info sys_example "/tmp/f" stat_file
      = .returned ("Path: /tmp/f\n\nInode:\t\t\t1234\nHome:\t\t\t25088\t\t/dev/root\n"
          ++ "UID:\t\t\t1000\t\tuser\nGID:\t\t\t1000\t\tusers\nType:\t\t\tRegular file\n"
          ++ "Permissions:\t\trw-r--r--\nSize:\t\t\t2.00K\n") ∧
    print_inode_info sys_example "/tmp" stat_dir
      = .returned ("Path: /tmp\n\nInode:\t\t\t77\nHome:\t\t\t25088\t\t/dev/root\n"
          ++ "UID:\t\t\t1000\t\tuser\nGID:\t\t\t1000\t\tusers\nType:\t\t\tDirectory\n"
          ++ "# of entries:\t\t4\nPermissions:\t\trwxr-xr-x\nSize:\t\t\t4.00K\n") :=
  ⟨(print_inode_info_fields sys_example "/tmp/f" stat_file).1.mpr
      ⟨⟨"Path: /tmp/f\n\n", by decide⟩, ⟨"Home:\t\t\t25088\t\t/dev/root\n", by decide⟩,
        ⟨"users", by decide⟩⟩,
    by decide, by decide⟩

/-! ## The type field and the identity fields -/

/-- C11: the type line of `pr_type` is followed by a "Dev. ID:" line with the
value of `st_rdev` exactly when the classifier returns "Block device" or
"Char. device"; for every other category, "Unknown" included, nothing follows
the type line. -/
theorem pr_type_dev_id (st : Stat) :
    ((ret_ftype st.st_mode = "Block device" ∨ ret_ftype st.st_mode = "Char. device") →
      pr_type st = "Type:\t\t\t" ++ ret_ftype st.st_mode ++ "\n"
        ++ ("Dev. ID:\t\t" ++ toString (to_long st.st_rdev) ++ "\n")) ∧
    (¬ (ret_ftype st.st_mode = "Block device" ∨ ret_ftype st.st_mode = "Char. device") →
      pr_type st = "Type:\t\t\t" ++ ret_ftype st.st_mode ++ "\n") ∧
    (st.st_rdev < 2 ^ 63 → toString (to_long st.st_rdev) = toString st.st_rdev) := by
  refine ⟨?_, ?_, ?_⟩
  · intro h
    have hb := (ret_ftype_dev st.st_mode).mp h
    unfold pr_type
    rw [if_pos hb]
  · intro h
    have hb : ¬ ((S_ISBLK st.st_mode || S_ISCHR st.st_mode) = true) :=
      fun hb => h ((ret_ftype_dev st.st_mode).mpr hb)
    unfold pr_type
    rw [if_neg hb]
    apply String.ext
    simp [String.data_append]
  · intro h
    have hm : st.st_rdev % 2 ^ 64 = st.st_rdev := Nat.mod_eq_of_lt (by omega)
    unfold to_long
    rw [hm, if_pos h]
    rfl

/-- The statement of C11 at a block device, a regular file and a mode of
unmapped type bits. -/
theorem pr_type_dev_id_witness :
    pr_type stat_blk = "Type:\t\t\tBlock device\nDev. ID:\t\t2049\n" ∧
    pr_type stat_file = "Type:\t\t\tRegular file\n" ∧
    pr_type { stat_file with st_mode := 0o030000 } = "Type:\t\t\tUnknown\n" :=
  ⟨((pr_type_dev_id stat_blk).1 (by decide)).trans (by decide),
   ((pr_type_dev_id stat_file).2.1 (by decide)).trans (by decide),
   ((pr_type_dev_id { stat_file with st_mode := 0o030000 }).2.1 (by decide)).trans (by decide)⟩

/-- C17: for a user id without a record `pr_uid` prints the numeric id followed
by a blank name, and for a user id with a record it prints the name of the
record next to the numeric id; it returns in both cases. -/
theorem pr_uid_name (sys : Sys) (uid : Nat) :
    (sys.getpwuid uid = none →
      pr_uid sys uid = "UID:\t\t\t" ++ toString uid ++ "\t\t" ++ " " ++ "\n") ∧
    (∀ name, sys.getpwuid uid = some name →
      pr_uid sys uid = "UID:\t\t\t" ++ toString uid ++ "\t\t" ++ name ++ "\n") := by
  constructor
  · intro h
    unfold pr_uid
    rw [h]
  · intro name h
    unfold pr_uid
    rw [h]

/-- The statement of C17 at an unknown and at a known user id. -/
theorem pr_uid_name_witness :
    pr_uid sys_example 4242 = "UID:\t\t\t4242\t\t \n" ∧
    pr_uid sys_example 1000 = "UID:\t\t\t1000\t\tuser\n" :=
  ⟨((pr_uid_name sys_example 4242).1 (by decide)).trans (by decide),
   ((pr_uid_name sys_example 1000).2 "user" (by decide)).trans (by decide)⟩

/-- C15 at its failing input: for a group id without a record `pr_gid` reads
`gr->gr_name` through the null pointer `getgrgid` returned and prints nothing,
where `pr_uid` prints the numeric id and a blank name; the report stops at the
owner line. -/
theorem pr_gid_unknown :
    sys_example.getgrgid 4242 = none ∧
    pr_gid sys_example 4242 = .undefined "" ∧
    pr_uid sys_example 4242 = "UID:\t\t\t4242\t\t \n" ∧
    print_inode_info sys_example "/tmp/f" { stat_file with st_gid := 4242 }
      = .undefined ("Path: /tmp/f\n\nInode:\t\t\t1234\nHome:\t\t\t25088\t\t/dev/root\n"
          ++ "UID:\t\t\t1000\t\tuser\n") := by
  decide

/-! ## Injectivity of the permission decoder -/

/-- A position of the decoded string tells the bit it was printed for. -/
theorem perm_char_inj (m1 m2 j : Nat) (h : perm_char m1 j = perm_char m2 j) :
    m1.testBit (8 - j) = m2.testBit (8 - j) := by
  have h3 : j % 3 = 0 ∨ j % 3 = 1 ∨ j % 3 = 2 := by omega
  unfold perm_char at h
  cases h1 : m1.testBit (8 - j) <;> cases h2 : m2.testBit (8 - j) <;> try rfl
  all_goals
    rw [h1, h2] at h
    rcases h3 with h3 | h3 | h3 <;> rw [h3] at h <;> exact absurd h (by decide)

/-- Equal decoded strings come from modes with the same nine low bits. -/
theorem perm_string_bits (m1 m2 : Nat) (h : perm_string m1 = perm_string m2) :
    ∀ i, i < 9 → m1.testBit i = m2.testBit i := by
  intro i hi
  have hd : (List.range 9).map (perm_char m1) = (List.range 9).map (perm_char m2) := by
    rw [← perm_string_data, ← perm_string_data, h]
  have hj : (8 - i) ∈ List.range 9 := List.mem_range.mpr (by omega)
  have hc := List.map_inj_left.mp hd (8 - i) hj
  have hb := perm_char_inj m1 m2 (8 - i) hc
  have e : 8 - (8 - i) = i := by omega
  rw [e] at hb
  exact hb

/-- C20: the decoder is injective on the nine permission bits: modes with the
same decoded string agree under the mask 0o777, so the 512 patterns of these
bits give 512 different strings. -/
theorem perm_string_injective (m1 m2 : Nat) (h : perm_string m1 = perm_string m2) :
    m1 &&& 0o777 = m2 &&& 0o777 ∧
    ((List.range 512).map perm_string).Nodup ∧
    ((List.range 512).map perm_string).length = 512 := by
  have hinj : ∀ a b : Nat, perm_string a = perm_string b → a &&& 0o777 = b &&& 0o777 := by
    intro a b hab
    apply Nat.eq_of_testBit_eq
    intro i
    rw [Nat.testBit_and, Nat.testBit_and]
    by_cases hi : i < 9
    · rw [perm_string_bits a b hab i hi]
    · have hle : 2 ^ 9 ≤ 2 ^ i := Nat.pow_le_pow_right (by decide) (Nat.le_of_not_lt hi)
      have hz : Nat.testBit 0o777 i = false :=
        Nat.testBit_lt_two_pow (Nat.lt_of_lt_of_le (by decide) hle)
      rw [hz, Bool.and_false, Bool.and_false]
  have hlow : ∀ a : Nat, a < 512 → a &&& 0o777 = a := by
    intro a ha
    have e : (0o777 : Nat) = 2 ^ 9 - 1 := by decide
    rw [e, Nat.and_pow_two_sub_one_eq_mod]
    exact Nat.mod_eq_of_lt ha
  refine ⟨hinj m1 m2 h, ?_, by simp⟩
  apply List.Nodup.map_on _ (List.nodup_range 512)
  intro a ha b hb hab
  have := hinj a b hab
  rwa [hlow a (List.mem_range.mp ha), hlow b (List.mem_range.mp hb)] at this

/-- The statement of C20 at a mode and the same mode with the setuid bit, which
decode to the same string and agree on the nine low bits. -/
theorem perm_string_injective_witness :
    perm_string 0o100755 = perm_string 0o104755 ∧
    (0o100755 : Nat) &&& 0o777 = 0o104755 &&& 0o777 :=
  ⟨by decide, (perm_string_injective 0o100755 0o104755 (by decide)).1⟩

/-! ## Branches of the path resolver -/

/-- C12: a path that starts with '/' is printed unchanged after the label,
whatever the answers of the system are: no call is made, no segment and no
symbolic link is resolved, and `pr_path` returns. -/
theorem pr_path_absolute (sys : Sys) (fname : String) (h : fname.data.head? = some '/') :
    pr_path sys fname = .returned ("Path: " ++ fname ++ "\n\n") := by
  unfold pr_path
  cases hd : fname.data with
  | nil => rw [hd] at h; simp at h
  | cons c rest =>
    rw [hd] at h
    have hc : c = '/' := by simpa using h
    subst hc
    rfl

/-- The statement of C12 at a path with a ".." segment, in two environments. -/
theorem pr_path_absolute_witness :
    pr_path sys_example "/a/../b" = .returned "Path: /a/../b\n\n" ∧
    pr_path sys_nocwd "/a/../b" = .returned "Path: /a/../b\n\n" :=
  ⟨(pr_path_absolute sys_example "/a/../b" (by decide)).trans (by decide),
   (pr_path_absolute sys_nocwd "/a/../b" (by decide)).trans (by decide)⟩

/-- The test of `pr_path` for an explicitly relative path holds exactly for
the paths that start with "./" or with "..". -/
theorem dot_test_iff (fname : String) :
    dot_test fname = true ↔ ("./".data <+: fname.data ∨ "..".data <+: fname.data) := by
  have e1 : ("./" : String).data = ['.', '/'] := rfl
  have e2 : (".." : String).data = ['.', '.'] := rfl
  unfold dot_test
  rw [e1, e2]
  cases fname.data with
  | nil => simp
  | cons a t =>
    cases t with
    | nil =>
      by_cases ha : a = '.'
      · subst ha; simp
      · simp [ha]
    | cons b u =>
      by_cases ha : a = '.'
      · subst ha
        simp [List.cons_prefix_cons]
        exact ⟨fun h => h.imp Eq.symm Eq.symm, fun h => h.imp Eq.symm Eq.symm⟩
      · simp [List.cons_prefix_cons, ha]
        exact ⟨fun h => absurd h.symm ha, fun h => absurd h.symm ha⟩

/-- The three branches of `pr_path`. -/
theorem pr_path_branch (sys : Sys) (fname : String) :
    pr_path sys fname =
      if fname.data.head? = some '/' then .returned ("Path: " ++ fname ++ "\n\n")
      else if dot_test fname = true then pr_path_real (sys.realpath fname)
      else pr_path_cwd sys fname := by
  unfold pr_path dot_test pr_path_real
  cases hd : fname.data with
  | nil => simp
  | cons a t =>
    by_cases ha : a = '/'
    · subst ha; simp
    · have h1 : ¬ ((a :: t).head? = some '/') := by simpa using ha
      rw [if_neg h1]
      by_cases hdot : a = '.'
      · subst hdot
        cases t with
        | nil => simp
        | cons b u =>
          by_cases hb : b = '/' ∨ b = '.'
          · rcases hb with hb | hb <;> subst hb <;> simp
          · have hb1 : ¬ b = '/' := fun h => hb (Or.inl h)
            have hb2 : ¬ b = '.' := fun h => hb (Or.inr h)
            simp [hb1, hb2]
      · simp [ha, hdot]

/-- The canonicalising branch always returns. -/
theorem pr_path_real_returned (r : Except Nat String) : ∃ o, pr_path_real r = .returned o := by
  unfold pr_path_real
  cases r with
  | error e => by_cases h : e = EACCES <;> simp [h]
  | ok p => simp

/-- Out of memory, the working-directory branch ends the process. -/
theorem pr_path_cwd_nomem (fname : String) :
    pr_path_cwd sys_nomem fname = .exited "Path: " 22 := by
  unfold pr_path_cwd
  rfl

/-- C18, as amended: a path that does not start with '/' takes the
canonicalising branch exactly when it starts with "./" or with "..", and the
working-directory branch otherwise. -/
theorem pr_path_canonical (fname : String) (hrel : fname.data.head? ≠ some '/') :
    ((∀ sys, pr_path sys fname = pr_path_real (sys.realpath fname)) ↔
      ("./".data <+: fname.data ∨ "..".data <+: fname.data)) ∧
    ((∀ sys, pr_path sys fname = pr_path_cwd sys fname) ↔
      ¬ ("./".data <+: fname.data ∨ "..".data <+: fname.data)) := by
  have hdiff : ∀ r, pr_path_cwd sys_nomem fname ≠ pr_path_real r := by
    intro r h
    obtain ⟨o, ho⟩ := pr_path_real_returned r
    rw [pr_path_cwd_nomem, ho] at h
    exact Outcome.noConfusion h
  by_cases hd : dot_test fname = true
  · have hreal : ∀ sys, pr_path sys fname = pr_path_real (sys.realpath fname) := by
      intro sys
      rw [pr_path_branch, if_neg hrel, if_pos hd]
    have hcond := (dot_test_iff fname).mp hd
    refine ⟨⟨fun _ => hcond, fun _ => hreal⟩, ⟨fun h => ?_, fun h => absurd hcond h⟩⟩
    exact absurd ((h sys_nomem).symm.trans (hreal sys_nomem)) (hdiff _)
  · have hcwd : ∀ sys, pr_path sys fname = pr_path_cwd sys fname := by
      intro sys
      rw [pr_path_branch, if_neg hrel, if_neg hd]
    have hcond : ¬ ("./".data <+: fname.data ∨ "..".data <+: fname.data) :=
      fun h => hd ((dot_test_iff fname).mpr h)
    refine ⟨⟨fun h => ?_, fun h => absurd h hcond⟩, ⟨fun _ => hcond, fun _ => hcwd⟩⟩
    exact absurd ((hcwd sys_nomem).symm.trans (h sys_nomem)) (hdiff _)

/-- The statement of the amended C18 at ".hidden", which takes the
working-directory branch, and at "..name", which is canonicalised. -/
theorem pr_path_canonical_witness :
    pr_path sys_canon ".hidden" = pr_path_cwd sys_canon ".hidden" ∧
    pr_path sys_canon "..name" = pr_path_real (sys_canon.realpath "..name") :=
  ⟨(pr_path_canonical ".hidden" (by decide)).2.mpr (by decide) sys_canon,
   (pr_path_canonical "..name" (by decide)).1.mpr (by decide) sys_canon⟩

/-- C18, as stated, fails at "." and at "..name": the path "." is the
current-directory marker and is not canonicalised (the working directory and
"/." are printed), and "..name", whose first component is neither "." nor "..",
is canonicalised. -/
theorem pr_path_dot_branches :
    pr_path sys_canon "." = .returned "Path: /home/user/.\n\n" ∧
    pr_path sys_canon "..name" = .returned "Path: /real/path\n\n" ∧
    ¬ ("./".data <+: "..name".data) ∧ ¬ ("../".data <+: "..name".data) := by
  decide

/-! ## The working-directory branch -/

/-- When `malloc` succeeds and the first `getcwd` gives a working directory of
at most 4095 characters, an implicit relative path is printed after the working
directory and a slash, unchanged. -/
theorem pr_path_concat (sys : Sys) (fname cwd : String)
    (hrel : fname.data.head? ≠ some '/') (hdot : dot_test fname = false)
    (hlen : fname.length < 2 ^ 64 - 4097)
    (hm : sys.malloc (4096 + (fname.length + 1)) = .ok ())
    (hc : sys.getcwd 0 = .ok cwd) (hcwd : cwd.length ≤ 4095) :
    pr_path sys fname = .returned ("Path: " ++ cwd ++ "/" ++ fname ++ "\n\n") := by
  have hmod : (4096 + (fname.length + 1)) % 2 ^ 64 = 4096 + (fname.length + 1) :=
    Nat.mod_eq_of_lt (by omega)
  have hg : getcwd sys 0 (4096 + (fname.length + 1)) = .ok cwd := by
    unfold getcwd
    rw [if_neg (by omega), hc]
    simp only
    rw [if_pos (by omega)]
  rw [pr_path_branch, if_neg hrel, if_neg (by simp [hdot])]
  unfold pr_path_cwd
  simp only [hmod, hm, hg]
  unfold pr_path_cat
  simp only
  rw [if_pos (by omega)]

/-- The buffer of `pr_path` is overrun when the first `getcwd` succeeds with a
working directory of 4096 characters or more. -/
theorem pr_path_cat_overrun (sys : Sys) (fname cwd : String)
    (hrel : fname.data.head? ≠ some '/') (hdot : dot_test fname = false)
    (hlen : fname.length < 2 ^ 64 - 4097)
    (hm : sys.malloc (4096 + (fname.length + 1)) = .ok ())
    (hc : sys.getcwd 0 = .ok cwd)
    (h1 : 4096 ≤ cwd.length) (h2 : cwd.length ≤ 4096 + fname.length) :
    pr_path sys fname = .undefined "Path: " := by
  have hmod : (4096 + (fname.length + 1)) % 2 ^ 64 = 4096 + (fname.length + 1) :=
    Nat.mod_eq_of_lt (by omega)
  have hg : getcwd sys 0 (4096 + (fname.length + 1)) = .ok cwd := by
    unfold getcwd
    rw [if_neg (by omega), hc]
    simp only
    rw [if_pos (by omega)]
  rw [pr_path_branch, if_neg hrel, if_neg (by simp [hdot])]
  unfold pr_path_cwd
  simp only [hmod, hm, hg]
  unfold pr_path_cat
  simp only
  rw [if_neg (by omega)]

/-- The working directory `deep_cwd` has 4096 characters. -/
theorem deep_cwd_length : deep_cwd.length = 4096 := by
  show (List.flatten (List.replicate 16 ('/' :: List.replicate 255 'd'))).length = 4096
  rw [List.length_flatten, List.map_replicate, List.length_cons, List.length_replicate,
    List.sum_replicate]
  rfl

/-- The working directory `long_cwd` has 10240 characters. -/
theorem long_cwd_length : long_cwd.length = 10240 := by
  show (List.flatten (List.replicate 40 ('/' :: List.replicate 255 'd'))).length = 10240
  rw [List.length_flatten, List.map_replicate, List.length_cons, List.length_replicate,
    List.sum_replicate]
  rfl

/-- C13 at its failing input: in a working directory of 4096 characters the
first `getcwd` succeeds for the path "a" (4097 bytes fit the buffer of 4098)
and the two `strcat` calls then write 4099 bytes into it; in a short working
directory the path is printed after it, unresolved. -/
theorem pr_path_overrun :
    deep_cwd.length = 4096 ∧
    getcwd sys_deep 0 4098 = .ok deep_cwd ∧
    pr_path sys_deep "a" = .undefined "Path: " ∧
    pr_path sys_example "a/../b" = .returned "Path: /home/user/a/../b\n\n" := by
  refine ⟨deep_cwd_length, ?_, ?_, by decide⟩
  · unfold getcwd
    rw [if_neg (by decide)]
    show (if deep_cwd.length + 1 ≤ 4098 then Except.ok deep_cwd else Except.error ERANGE) = _
    rw [deep_cwd_length, if_pos (by decide)]
  · exact pr_path_cat_overrun sys_deep "a" deep_cwd (by decide) (by decide) (by decide) rfl rfl
      (by rw [deep_cwd_length]) (by rw [deep_cwd_length]; decide)

/-! ## Fatal and non-fatal failures of the path resolver -/

/-- Doubling the `size_t` size once more. -/
theorem double_mod (psize j : Nat) :
    psize * 2 % 2 ^ 64 * 2 ^ j % 2 ^ 64 = psize * 2 ^ (j + 1) % 2 ^ 64 := by
  rw [Nat.mod_mul_mod, Nat.mul_assoc, ← Nat.pow_succ']

/-- The loop of `pr_path` ends the process exactly when one of its `realloc`
calls fails: the call of turn `k`, made after `k` turns in which `realloc`
succeeded and `getcwd` failed with `ERANGE`. -/
theorem pr_path_grow_exit (sys : Sys) : ∀ (fuel n psize c : Nat),
    pr_path_grow sys fuel n psize = .exit c ↔
      ∃ k, k < fuel ∧
        (∀ i, i < k → sys.realloc (n + i) (psize * 2 ^ (i + 1) % 2 ^ 64) = .ok () ∧
          getcwd sys (n + i + 1) (psize * 2 ^ (i + 1) % 2 ^ 64) = .error ERANGE) ∧
        sys.realloc (n + k) (psize * 2 ^ (k + 1) % 2 ^ 64) = .error c := by
  intro fuel
  induction fuel with
  | zero =>
    intro n psize c
    constructor
    · intro h; simp [pr_path_grow] at h
    · rintro ⟨k, hk, _⟩; exact absurd hk (Nat.not_lt_zero _)
  | succ fuel ih =>
    intro n psize c
    have h1 : psize * 2 ^ (0 + 1) % 2 ^ 64 = psize * 2 % 2 ^ 64 := by simp
    unfold pr_path_grow
    simp only
    cases hr : sys.realloc n (psize * 2 % 2 ^ 64) with
    | error e =>
      simp only
      constructor
      · intro h
        simp only [Grow.exit.injEq] at h
        refine ⟨0, Nat.succ_pos _, fun i hi => absurd hi (Nat.not_lt_zero _), ?_⟩
        rw [Nat.add_zero, h1, hr, h]
      · rintro ⟨k, _, hall, hlast⟩
        cases k with
        | zero =>
          rw [Nat.add_zero, h1, hr] at hlast
          simp only [Except.error.injEq] at hlast
          rw [hlast]
        | succ k =>
          have h0 := (hall 0 (Nat.succ_pos _)).1
          rw [Nat.add_zero, h1, hr] at h0
          exact Except.noConfusion h0
    | ok u =>
      simp only
      cases hg : getcwd sys (n + 1) (psize * 2 % 2 ^ 64) with
      | error e =>
        simp only
        by_cases he : e = ERANGE
        · rw [if_pos he, ih (n + 1) (psize * 2 % 2 ^ 64) c]
          constructor
          · rintro ⟨k, hk, hall, hlast⟩
            refine ⟨k + 1, Nat.succ_lt_succ hk, ?_, ?_⟩
            · intro i hi
              cases i with
              | zero =>
                rw [Nat.add_zero, h1, hr, hg, he]
                exact ⟨rfl, rfl⟩
              | succ i =>
                have hi2 := hall i (Nat.lt_of_succ_lt_succ hi)
                rw [double_mod] at hi2
                have e1 : n + (i + 1) = n + 1 + i := by omega
                rw [e1]
                exact hi2
            · rw [double_mod] at hlast
              have e1 : n + (k + 1) = n + 1 + k := by omega
              rw [e1]
              exact hlast
          · rintro ⟨k, hk, hall, hlast⟩
            cases k with
            | zero =>
              rw [Nat.add_zero, h1, hr] at hlast
              exact Except.noConfusion hlast
            | succ k =>
              refine ⟨k, Nat.lt_of_succ_lt_succ hk, ?_, ?_⟩
              · intro i hi
                have hi2 := hall (i + 1) (Nat.succ_lt_succ hi)
                have e1 : n + (i + 1) = n + 1 + i := by omega
                rw [e1] at hi2
                rw [double_mod]
                exact hi2
              · have e1 : n + (k + 1) = n + 1 + k := by omega
                rw [e1] at hlast
                rw [double_mod]
                exact hlast
        · rw [if_neg he]
          constructor
          · intro h; exact Grow.noConfusion h
          · rintro ⟨k, _, hall, hlast⟩
            cases k with
            | zero =>
              rw [Nat.add_zero, h1, hr] at hlast
              exact Except.noConfusion hlast
            | succ k =>
              have h0 := (hall 0 (Nat.succ_pos _)).2
              rw [Nat.add_zero, h1, hg] at h0
              simp only [Except.error.injEq] at h0
              exact absurd h0 he
      | ok cwd =>
        simp only
        constructor
        · intro h; exact Grow.noConfusion h
        · rintro ⟨k, _, hall, hlast⟩
          cases k with
          | zero =>
            rw [Nat.add_zero, h1, hr] at hlast
            exact Except.noConfusion hlast
          | succ k =>
            have h0 := (hall 0 (Nat.succ_pos _)).2
            rw [Nat.add_zero, h1, hg] at h0
            exact Except.noConfusion h0

/-- The tail of `pr_path` never ends the process. -/
theorem pr_path_cat_not_exited (o : String) (psize : Nat) (path : Option String)
    (fname out : String) (c : Nat) : pr_path_cat o psize path fname ≠ .exited out c := by
  unfold pr_path_cat
  split
  · simp
  · split_ifs <;> simp

/-- The loop of `pr_path`, as `pr_path_cwd` runs it, ends the process exactly
when the `realloc` of some turn fails. -/
theorem pr_path_grow_exit_cwd (sys : Sys) (psize c : Nat) :
    pr_path_grow sys 64 0 psize = .exit c ↔
      ∃ k, (∀ i, i < k → sys.realloc i (psize * 2 ^ (i + 1) % 2 ^ 64) = .ok () ∧
          getcwd sys (i + 1) (psize * 2 ^ (i + 1) % 2 ^ 64) = .error ERANGE) ∧
        sys.realloc k (psize * 2 ^ (k + 1) % 2 ^ 64) = .error c := by
  rw [pr_path_grow_exit]
  simp only [Nat.zero_add]
  constructor
  · rintro ⟨k, _, hall, hlast⟩
    exact ⟨k, hall, hlast⟩
  · rintro ⟨k, hall, hlast⟩
    refine ⟨k, ?_, hall, hlast⟩
    by_contra hk
    have h63 := (hall 63 (by omega)).2
    have hz : psize * 2 ^ (63 + 1) % 2 ^ 64 = 0 := Nat.mul_mod_left _ _
    exact getcwd_erange sys _ _ h63 hz

/-- C14, as amended: `pr_path` ends the process with `exit(errno)`, after a
`perror`, exactly in three cases, all on a path that is neither absolute nor
explicitly relative: `malloc` fails; the first `getcwd` fails with an error
other than `EACCES` and `ERANGE`; or the `realloc` of some turn `k` of the loop
fails, after `k` turns in which `realloc` succeeded and `getcwd` failed with
`ERANGE`.  A failed `realpath` makes it return, after the message
"Permission denied" for `EACCES` and after no message for any other error. -/
theorem pr_path_exit (sys : Sys) (fname : String) :
    (∀ out status, pr_path sys fname = .exited out status ↔
      fname.data.head? ≠ some '/' ∧ dot_test fname = false ∧ out = "Path: " ∧
      ((∃ e, sys.malloc ((4096 + (fname.length + 1)) % 2 ^ 64) = .error e ∧
          status = sys.perror "Malloc" e) ∨
       (sys.malloc ((4096 + (fname.length + 1)) % 2 ^ 64) = .ok () ∧
        ∃ e, getcwd sys 0 ((4096 + (fname.length + 1)) % 2 ^ 64) = .error e ∧
          e ≠ EACCES ∧ e ≠ ERANGE ∧ status = sys.perror "Getcwd" e) ∨
       (sys.malloc ((4096 + (fname.length + 1)) % 2 ^ 64) = .ok () ∧
        getcwd sys 0 ((4096 + (fname.length + 1)) % 2 ^ 64) = .error ERANGE ∧
        ∃ k e,
          (∀ i, i < k →
            sys.realloc i ((4096 + (fname.length + 1)) % 2 ^ 64 * 2 ^ (i + 1) % 2 ^ 64) = .ok () ∧
            getcwd sys (i + 1) ((4096 + (fname.length + 1)) % 2 ^ 64 * 2 ^ (i + 1) % 2 ^ 64)
              = .error ERANGE) ∧
          sys.realloc k ((4096 + (fname.length + 1)) % 2 ^ 64 * 2 ^ (k + 1) % 2 ^ 64) = .error e ∧
          status = sys.perror "Realloc" e))) ∧
    (fname.data.head? ≠ some '/' → dot_test fname = true →
      ∀ e, sys.realpath fname = .error e →
        pr_path sys fname
          = .returned (if e = EACCES then "Path: Permission denied\n\n" else "Path: ")) := by
  have hne : ¬ (ERANGE = EACCES) := by decide
  refine ⟨?_, ?_⟩
  · intro out status
    rw [pr_path_branch]
    by_cases h1 : fname.data.head? = some '/'
    · rw [if_pos h1]
      constructor
      · intro h; exact Outcome.noConfusion h
      · rintro ⟨h, _⟩; exact absurd h1 h
    rw [if_neg h1]
    by_cases h2 : dot_test fname = true
    · rw [if_pos h2]
      obtain ⟨o, ho⟩ := pr_path_real_returned (sys.realpath fname)
      rw [ho]
      constructor
      · intro h; exact Outcome.noConfusion h
      · rintro ⟨_, h, _⟩; rw [h2] at h; exact Bool.noConfusion h
    rw [if_neg h2]
    have hd : dot_test fname = false := by simpa using h2
    unfold pr_path_cwd
    simp only
    generalize (4096 + (fname.length + 1)) % 2 ^ 64 = P
    cases hm : sys.malloc P with
    | error e =>
      simp only [Outcome.exited.injEq]
      constructor
      · rintro ⟨ho, hs⟩
        exact ⟨h1, hd, ho.symm, Or.inl ⟨e, rfl, hs.symm⟩⟩
      · rintro ⟨_, _, ho, h | h | h⟩
        · obtain ⟨e2, he2, hs⟩ := h
          simp only [Except.error.injEq] at he2
          rw [ho, hs, he2]
          exact ⟨rfl, rfl⟩
        · exact Except.noConfusion h.1
        · exact Except.noConfusion h.1
    | ok u =>
      simp only
      cases hg : getcwd sys 0 P with
      | ok cwd =>
        simp only
        constructor
        · intro h; exact absurd h (pr_path_cat_not_exited _ _ _ _ _ _)
        · rintro ⟨_, _, _, h | h | h⟩
          · obtain ⟨e2, he2, _⟩ := h
            exact Except.noConfusion he2
          · obtain ⟨_, e2, he2, _⟩ := h
            exact Except.noConfusion he2
          · exact Except.noConfusion h.2.1
      | error e =>
        simp only
        by_cases he1 : e = EACCES
        · rw [if_pos he1]
          constructor
          · intro h; exact absurd h (pr_path_cat_not_exited _ _ _ _ _ _)
          · rintro ⟨_, _, _, h | h | h⟩
            · obtain ⟨e2, he2, _⟩ := h
              exact Except.noConfusion he2
            · obtain ⟨_, e2, he2, hx, _⟩ := h
              simp only [Except.error.injEq] at he2
              exact absurd (he2 ▸ he1) hx
            · have hx := h.2.1
              simp only [Except.error.injEq] at hx
              exact absurd (hx ▸ he1 : ERANGE = EACCES) hne
        rw [if_neg he1]
        by_cases he2 : e = ERANGE
        · rw [if_pos he2]
          have hiff := pr_path_grow_exit_cwd sys P
          constructor
          · intro h
            cases hgrow : pr_path_grow sys 64 0 P with
            | exit e2 =>
              rw [hgrow] at h
              simp only [Outcome.exited.injEq] at h
              obtain ⟨k, hall, hlast⟩ := (hiff e2).mp hgrow
              exact ⟨h1, hd, h.1.symm,
                Or.inr (Or.inr ⟨trivial, he2 ▸ rfl, k, e2, hall, hlast, h.2.symm⟩)⟩
            | done p2 r =>
              rw [hgrow] at h
              cases r with
              | error e3 => exact absurd h (pr_path_cat_not_exited _ _ _ _ _ _)
              | ok c3 => exact absurd h (pr_path_cat_not_exited _ _ _ _ _ _)
            | more =>
              rw [hgrow] at h
              exact Outcome.noConfusion h
          · rintro ⟨_, _, ho, h | h | h⟩
            · obtain ⟨e3, he3, _⟩ := h
              exact Except.noConfusion he3
            · obtain ⟨_, e3, he3, _, hx, _⟩ := h
              simp only [Except.error.injEq] at he3
              exact absurd (he3 ▸ he2) hx
            · obtain ⟨_, _, k, e3, hall, hlast, hs⟩ := h
              have hgrow := (hiff e3).mpr ⟨k, hall, hlast⟩
              rw [hgrow, ho, hs]
        · rw [if_neg he2]
          simp only [Outcome.exited.injEq]
          constructor
          · rintro ⟨ho, hs⟩
            exact ⟨h1, hd, ho.symm, Or.inr (Or.inl ⟨trivial, e, rfl, he1, he2, hs.symm⟩)⟩
          · rintro ⟨_, _, ho, h | h | h⟩
            · obtain ⟨e3, he3, _⟩ := h
              exact Except.noConfusion he3
            · obtain ⟨_, e3, he3, _, _, hs⟩ := h
              simp only [Except.error.injEq] at he3
              rw [ho, hs, he3]
              exact ⟨rfl, rfl⟩
            · have hx := h.2.1
              simp only [Except.error.injEq] at hx
              exact absurd hx he2
  · intro h1 hd e hr
    rw [pr_path_branch, if_neg h1, if_pos hd]
    unfold pr_path_real
    rw [hr]
    simp only
    split_ifs <;> rfl

/-- In `sys_realloc2` the first `getcwd` for "a" finds the buffer too small. -/
theorem realloc2_first :
    getcwd sys_realloc2 0 ((4096 + ("a".length + 1)) % 2 ^ 64) = .error ERANGE := by
  unfold getcwd
  rw [if_neg (by decide)]
  show (if long_cwd.length + 1 ≤ (4096 + ("a".length + 1)) % 2 ^ 64 then Except.ok long_cwd
    else Except.error ERANGE) = _
  rw [long_cwd_length, if_neg (by decide)]

/-- In `sys_realloc2` the first turn of the loop for "a" has a `realloc` that
succeeds and a `getcwd` that finds the buffer too small. -/
theorem realloc2_turns : ∀ i, i < 1 →
    sys_realloc2.realloc i ((4096 + ("a".length + 1)) % 2 ^ 64 * 2 ^ (i + 1) % 2 ^ 64) = .ok () ∧
    getcwd sys_realloc2 (i + 1) ((4096 + ("a".length + 1)) % 2 ^ 64 * 2 ^ (i + 1) % 2 ^ 64)
      = .error ERANGE := by
  intro i hi
  have h0 : i = 0 := by omega
  subst h0
  refine ⟨rfl, ?_⟩
  unfold getcwd
  rw [if_neg (by decide)]
  show (if long_cwd.length + 1 ≤ (4096 + ("a".length + 1)) % 2 ^ 64 * 2 ^ (0 + 1) % 2 ^ 64
    then Except.ok long_cwd else Except.error ERANGE) = _
  rw [long_cwd_length, if_neg (by decide)]

/-- The statement of the amended C14: out of memory the process ends, and so
it does when the second `realloc` fails after two `getcwd` calls found the
buffer too small; a `realpath` that fails with `ENOENT` makes the call return
without a message. -/
theorem pr_path_exit_witness :
    pr_path sys_nomem "a" = .exited "Path: " 22 ∧
    pr_path sys_realloc2 "a" = .exited "Path: " 22 ∧
    pr_path sys_example "./gone" = .returned "Path: " :=
  ⟨((pr_path_exit sys_nomem "a").1 "Path: " 22).mpr
      ⟨by decide, by decide, rfl, Or.inl ⟨12, rfl, rfl⟩⟩,
   ((pr_path_exit sys_realloc2 "a").1 "Path: " 22).mpr
      ⟨by decide, by decide, rfl, Or.inr (Or.inr ⟨rfl, realloc2_first, 1, 12,
        realloc2_turns, rfl, rfl⟩)⟩,
   ((pr_path_exit sys_example "./gone").2 (by decide) (by decide) 2 rfl).trans (by decide)⟩

/-- C14, as stated, fails when the working directory was removed: `malloc`
succeeds, `getcwd` fails with `ENOENT`, and `pr_path` ends the process with
`exit(errno)` after `perror`, so that no further field of the report is
printed. -/
theorem pr_path_getcwd_fatal :
    sys_nocwd.malloc 4098 = .ok () ∧
    pr_path sys_nocwd "a" = .exited "Path: " (sys_nocwd.perror "Getcwd" 2) ∧
    print_inode_info sys_nocwd "a" stat_file = .exited "Path: " 22 := by
  refine ⟨rfl, by decide, by decide⟩

/-- When `getcwd` fails with `EACCES`, `pr_path` prints "Permission denied" and
then passes the null pointer to `strcat`. -/
theorem pr_path_getcwd_eacces :
    pr_path sys_eacces "a" = .undefined "Path: Permission denied\n\n" := by
  decide

/-! ## The device string of the mount resolver -/

set_option maxRecDepth 100000 in
/-- A number below 256 has no bit under the mask of the high minor bits. -/
theorem and_high_minor : ∀ x < 256, x &&& 0xffffff00 = 0 := by
  decide

/-- The string `pr_home` searches for is made of `(int)dev >> 8` and
`(int)dev & 0xff`; for a device identifier below `2 ^ 20` (major below 4096 and
minor below 256) these are the major and minor numbers of the platform, so
that the string is "major:minor". -/
theorem dev_ver_platform (dev : Nat) (h : dev < 2 ^ 20) :
    dev_ver dev = toString (to_int dev >>> 8) ++ ":" ++ toString ((dev % 2 ^ 32) &&& 0xff) ∧
    dev_ver dev = toString (gnu_dev_major dev) ++ ":" ++ toString (gnu_dev_minor dev) ∧
    gnu_dev_major dev = dev / 256 ∧ gnu_dev_minor dev = dev % 256 := by
  have hmaj : gnu_dev_major dev = dev >>> 8 := by
    unfold gnu_dev_major
    have h32 : dev >>> 32 = 0 := by
      rw [Nat.shiftRight_eq_div_pow]
      exact Nat.div_eq_of_lt (by omega)
    have h8 : dev >>> 8 < 2 ^ 12 := by
      rw [Nat.shiftRight_eq_div_pow]
      omega
    have e : (0xfff : Nat) = 2 ^ 12 - 1 := by decide
    rw [h32, Nat.zero_and, Nat.zero_or, e, Nat.and_pow_two_sub_one_eq_mod,
      Nat.mod_eq_of_lt h8]
  have hmin : gnu_dev_minor dev = dev &&& 0xff := by
    unfold gnu_dev_minor
    have h12 : dev >>> 12 < 256 := by
      rw [Nat.shiftRight_eq_div_pow]
      omega
    rw [and_high_minor _ h12, Nat.zero_or]
  have hmod : dev % 2 ^ 32 = dev := Nat.mod_eq_of_lt (by omega)
  have hint : to_int dev = ((dev : Nat) : Int) := by
    unfold to_int
    rw [hmod, if_pos (by omega)]
  have hff : dev &&& 0xff = dev % 256 := by
    have e : (0xff : Nat) = 2 ^ 8 - 1 := by decide
    rw [e, Nat.and_pow_two_sub_one_eq_mod]
  refine ⟨rfl, ?_, ?_, ?_⟩
  · unfold dev_ver
    rw [hmaj, hmin, hmod, hint]
    rfl
  · rw [hmaj, Nat.shiftRight_eq_div_pow]
  · rw [hmin, hff]

/-- The device 98:0 is formatted as the platform decomposes it. -/
theorem dev_ver_platform_small :
    (25088 : Nat) < 2 ^ 20 ∧ dev_ver 25088 = "98:0" ∧
    gnu_dev_major 25088 = 98 ∧ gnu_dev_minor 25088 = 0 :=
  ⟨by decide, (dev_ver_platform 25088 (by decide)).1.trans (by decide),
   (dev_ver_platform 25088 (by decide)).2.2.1.trans (by decide),
   (dev_ver_platform 25088 (by decide)).2.2.2.trans (by decide)⟩

/-- C16 at its failing input, the device 0:300 (identifier 1048620): the
platform decomposes it into major 0 and minor 300, the code formats "4096:44"
instead of "0:300", and the line of that device in the mount table is not
found. -/
theorem dev_ver_not_platform :
    gnu_dev_major 1048620 = 0 ∧ gnu_dev_minor 1048620 = 300 ∧
    dev_ver 1048620 = "4096:44" ∧
    dev_ver 1048620 ≠ toString (gnu_dev_major 1048620) ++ ":" ++ toString (gnu_dev_minor 1048620) ∧
    (toString (gnu_dev_major 1048620) ++ ":" ++ toString (gnu_dev_minor 1048620)).data
      <:+: "40 35 0:300 / /run rw,nosuid ".data ∧
    pr_home (some "40 35 0:300 / /run rw,nosuid - tmpfs tmpfs rw\n") 1048620
      = .returned "Home:\t\t\t1048620\t\t \n" := by
  decide

/-! ## The line the mount resolver selects -/

end Filemeta
